import Mathlib

/-!
# Palette extraction and swatch repositioning of `src/App.jsx`

A shallow embedding of the colour conversions (`rgbToHex`, `rgbToHsl`), of the
palette extractor (`extractProminentColors`) and of the palette handlers of the
`App` component (`getColorAtPosition`, `handleAddColor`, `handleRemoveColor`,
`handleMove`), followed by the properties established about them.

Conventions of the embedding.
* JavaScript numbers that hold integers are `Nat` or `Int`; numbers that hold
  fractions (`Math.random()`, pointer positions, the bounding rectangle) are
  the rationals `ℚ` they denote.
* The arithmetic of `handleMove` (lines 459-464) is the arithmetic of doubles:
  every operation is the exact operation followed by `toDouble`, the rounding
  to the nearest double. The arithmetic of `rgbToHsl`, of `handleAddColor` and
  of the padding coordinates is exact; for `rgbToHsl` the difference this makes
  is stated with its definition.
* `Date.now()` and `Math.random()` are streams: the value of the n-th call made
  during a run is `now n`, respectively `random n`.
* A `for`/`while` loop is a function recursive on a fuel argument; running out
  of fuel is the error `JsError.outOfFuel`.
* A typed-array read outside the buffer (the value `undefined` in JavaScript)
  is the error `JsError.undefinedRead`: the model does not follow the program
  past such a read.
-/

namespace PrismaStudio

/-! ## Colour space converter (lines 20-46) -/

/-- ToInt32 of ECMAScript on an integral number: reduction modulo 2^32 into
the signed 32-bit range. -/
def toInt32 (n : Int) : Int := (n + 2147483648) % 4294967296 - 2147483648

/-- The operator `<<` on integral operands, for a shift count below 32:
`ToInt32 (ToInt32 n * 2^k)`. -/
def shl (n : Int) (k : Nat) : Int := toInt32 (toInt32 n * 2 ^ k)

/-- The method `Number.prototype.toString(16)` on an integer: lowercase digits without
leading zeros, preceded by a minus sign when the number is negative. -/
def toString16 (n : Int) : List Char :=
  if n < 0 then '-' :: Nat.toDigits 16 n.natAbs else Nat.toDigits 16 n.natAbs

/-- Lines 20-22:
`"#" + ((1 << 24) + (r << 16) + (g << 8) + b).toString(16).slice(1).toUpperCase()`. -/
def rgbToHex (r g b : Int) : String :=
  "#" ++ String.mk (((toString16 (shl 1 24 + shl r 16 + shl g 8 + b)).drop 1).map Char.toUpper)

/-- The record returned by `rgbToHsl`. -/
structure Hsl where
  h : Int
  s : Int
  l : Int
deriving DecidableEq, Repr

/-- The function `Math.round`: the nearest integer, a tie going towards plus infinity. -/
def mathRound (x : ℚ) : Int := ⌊x + 1 / 2⌋

/-- Lines 24-46. The `switch (max)` compares with `===` and takes the first
matching case; `max` is one of the three channels, so when the first two cases
do not match the third one does. The arithmetic is exact: where the exact
value of `h * 360` or `s * 100` is an integer plus one half, the doubles of the
code can fall just below it and `Math.round` then gives one less than here
(`h` at `(0, 13, 40)`, `s` at `(7, 7, 105)`); `l` and the ranges of `h`, `s`
and `l` are the same on all bytes. -/
def rgbToHsl (r g b : Int) : Hsl :=
  let r : ℚ := (r : ℚ) / 255
  let g : ℚ := (g : ℚ) / 255
  let b : ℚ := (b : ℚ) / 255
  let max : ℚ := Max.max r (Max.max g b)
  let min : ℚ := Min.min r (Min.min g b)
  let l : ℚ := (max + min) / 2
  if max = min then
    { h := mathRound (0 * 360), s := mathRound (0 * 100), l := mathRound (l * 100) }
  else
    let d : ℚ := max - min
    let s : ℚ := if l > 1 / 2 then d / (2 - max - min) else d / (max + min)
    let h : ℚ :=
      if max = r then (g - b) / d + (if g < b then 6 else 0)
      else if max = g then (b - r) / d + 2
      else (r - g) / d + 4
    let h : ℚ := h / 6
    { h := mathRound (h * 360), s := mathRound (s * 100), l := mathRound (l * 100) }

/-! ## Bitmap and pixel reads -/

/-- The ways in which a run of the embedded program ends without a value. -/
inductive JsError where
  | outOfFuel
  | undefinedRead
  | typeError
  | indexSizeError
deriving DecidableEq, Repr

/-- The arguments `width`, `height` of `extractProminentColors` together with
the buffer `ctx.getImageData(0, 0, width, height).data`: four bytes (red,
green, blue, alpha) per pixel, rows first. -/
structure Bitmap where
  width : Nat
  height : Nat
  data : List Nat
deriving DecidableEq, Repr

/-- A decoded bitmap: positive dimensions, a buffer of `4 * width * height`
entries, each of them a byte. -/
def Bitmap.Valid (bm : Bitmap) : Prop :=
  1 ≤ bm.width ∧ 1 ≤ bm.height ∧ bm.data.length = 4 * bm.width * bm.height ∧
    ∀ v ∈ bm.data, v < 256

instance (bm : Bitmap) : Decidable bm.Valid := by
  unfold Bitmap.Valid; infer_instance

/-- The read `data[index]` of a typed array. -/
def dataAt (data : List Nat) (index : Int) : Except JsError Nat :=
  if index < 0 then .error .undefinedRead
  else
    match data[index.toNat]? with
    | some v => .ok v
    | none => .error .undefinedRead

/-- One entry of the palette. Swatches made by `handleAddColor` and
`handleMove` also carry the field `hex` of the record spread into them; those
made by `extractProminentColors` do not. -/
structure Swatch where
  id : Nat
  x : Int
  y : Int
  color : String
  hex : Option String
  r : Int
  g : Int
  b : Int
  h : Int
  s : Int
  l : Int
deriving DecidableEq, Repr

/-! ## Palette extractor (lines 57-136) -/

/-- The bucket key: the template string of the three quantized channels,
represented by the triple itself (the string is an injective rendering of it). -/
abbrev Key := Nat × Nat × Nat

/-- A value of `colorMap`. -/
structure Bucket where
  count : Nat
  r : Nat
  g : Nat
  b : Nat
deriving DecidableEq, Repr

/-- A value of `positionMap`. -/
structure Pos where
  x : Nat
  y : Nat
deriving DecidableEq, Repr

/-- A JavaScript object with string keys, as the list of its entries in
insertion order (the order of `Object.values`). -/
abbrev JsObject (α : Type) := List (Key × α)

/-- The property read `obj[key]`; `none` is `undefined`. -/
def JsObject.get {α : Type} (obj : JsObject α) (key : Key) : Option α :=
  (obj.find? (fun e => decide (e.1 = key))).map Prod.snd

/-- The assignment `obj[key] = v`: an existing key keeps its place, a new key
goes last. -/
def JsObject.set {α : Type} (obj : JsObject α) (key : Key) (v : α) : JsObject α :=
  if (obj.get key).isSome then obj.map (fun e => if e.1 = key then (key, v) else e)
  else obj ++ [(key, v)]

/-- The statement `colorMap[key].count++` on an existing key. -/
def incrCount (colorMap : JsObject Bucket) (key : Key) : JsObject Bucket :=
  colorMap.map (fun e => if e.1 = key then (e.1, { e.2 with count := e.2.count + 1 }) else e)

/-- The two maps filled by the sampling loops. -/
structure ScanState where
  colorMap : JsObject Bucket
  positionMap : JsObject Pos
deriving DecidableEq, Repr

/-- Lines 67-85, the body of the inner sampling loop at `(x, y)`. -/
def scanPixel (bm : Bitmap) (x y : Nat) (st : ScanState) : Except JsError ScanState := do
  let index : Int := ((y * bm.width + x) * 4 : Nat)
  let r ← dataAt bm.data index
  let g ← dataAt bm.data (index + 1)
  let b ← dataAt bm.data (index + 2)
  let a ← dataAt bm.data (index + 3)
  if a < 128 then
    pure st
  else
    let qr := r / 64 * 64
    let qg := g / 64 * 64
    let qb := b / 64 * 64
    let key : Key := (qr, qg, qb)
    let st : ScanState :=
      if (st.colorMap.get key).isNone then
        { colorMap := st.colorMap.set key { count := 0, r := qr, g := qg, b := qb },
          positionMap := st.positionMap.set key { x := x, y := y } }
      else st
    pure { st with colorMap := incrCount st.colorMap key }

/-- Line 66: `for (let x = 0; x < width; x += sampleRate)`, from the current `x`. -/
def scanX (bm : Bitmap) (sampleRate y : Nat) : Nat → Nat → ScanState → Except JsError ScanState
  | 0, x, st => if x < bm.width then .error .outOfFuel else .ok st
  | fuel + 1, x, st =>
    if x < bm.width then do
      let st ← scanPixel bm x y st
      scanX bm sampleRate y fuel (x + sampleRate) st
    else .ok st

/-- Line 65: `for (let y = 0; y < height; y += sampleRate)`, from the current
`y`; every run of the inner loop gets `fuelX`. -/
def scanY (bm : Bitmap) (sampleRate fuelX : Nat) : Nat → Nat → ScanState → Except JsError ScanState
  | 0, y, st => if y < bm.height then .error .outOfFuel else .ok st
  | fuel + 1, y, st =>
    if y < bm.height then do
      let st ← scanX bm sampleRate y fuelX 0 st
      scanY bm sampleRate fuelX fuel (y + sampleRate) st
    else .ok st

/-- The record returned by `getActualColorAt`. -/
structure Rgb where
  r : Nat
  g : Nat
  b : Nat
deriving DecidableEq, Repr

/-- Lines 93-96. -/
def getActualColorAt (bm : Bitmap) (x y : Int) : Except JsError Rgb := do
  let index : Int := (y * bm.width + x) * 4
  let r ← dataAt bm.data index
  let g ← dataAt bm.data (index + 1)
  let b ← dataAt bm.data (index + 2)
  pure { r := r, g := g, b := b }

/-- The mutable variables of the second half of `extractProminentColors`,
with the number of calls made so far to `Date.now()` and to `Math.random()`. -/
structure ExtractState where
  palette : List Swatch
  usedKeys : List Key
  count : Nat
  clockReads : Nat
  randomReads : Nat
deriving DecidableEq, Repr

/-- Lines 99-119: the loop over `sortedColors`, from the current element. -/
def rankLoop (now : Nat → Nat) (bm : Bitmap) (positionMap : JsObject Pos) :
    List Bucket → ExtractState → Except JsError ExtractState
  | [], st => .ok st
  | c :: rest, st =>
    if st.count ≥ 5 then .ok st
    else
      let key : Key := (c.r, c.g, c.b)
      if key ∈ st.usedKeys then rankLoop now bm positionMap rest st
      else
        match positionMap.get key with
        | none => .error .typeError
        | some pos => do
          let actual ← getActualColorAt bm pos.x pos.y
          let hsl := rgbToHsl actual.r actual.g actual.b
          rankLoop now bm positionMap rest
            { st with
              palette := st.palette ++ [{
                id := now st.clockReads + st.count,
                x := pos.x,
                y := pos.y,
                color := rgbToHex actual.r actual.g actual.b,
                hex := none,
                r := actual.r, g := actual.g, b := actual.b,
                h := hsl.h, s := hsl.s, l := hsl.l }],
              usedKeys := key :: st.usedKeys,
              count := st.count + 1,
              clockReads := st.clockReads + 1 }

/-- Lines 121-134: `while (palette.length < 5)`. -/
def padLoop (now : Nat → Nat) (random : Nat → ℚ) (bm : Bitmap) :
    Nat → ExtractState → Except JsError ExtractState
  | 0, st => if st.palette.length < 5 then .error .outOfFuel else .ok st
  | fuel + 1, st =>
    if st.palette.length < 5 then do
      let rx : Int := ⌊random st.randomReads * bm.width⌋
      let ry : Int := ⌊random (st.randomReads + 1) * bm.height⌋
      let actual ← getActualColorAt bm rx ry
      let hsl := rgbToHsl actual.r actual.g actual.b
      padLoop now random bm fuel
        { st with
          palette := st.palette ++ [{
            id := now st.clockReads + st.palette.length,
            x := rx,
            y := ry,
            color := rgbToHex actual.r actual.g actual.b,
            hex := none,
            r := actual.r, g := actual.g, b := actual.b,
            h := hsl.h, s := hsl.s, l := hsl.l }],
          clockReads := st.clockReads + 1,
          randomReads := st.randomReads + 2 }
    else .ok st

/-- The call `Object.values(colorMap).sort((a, b) => b.count - a.count)`.
`Array.prototype.sort` is stable, and the stable arrangement by a total
preorder is unique; insertion sort computes it. -/
def sortColors (colorMap : JsObject Bucket) : List Bucket :=
  (colorMap.map Prod.snd).insertionSort (fun a b => b.count ≤ a.count)

/-- Lines 57-119: everything up to the end of the loop over `sortedColors`;
the palette of the state it returns holds the ranked swatches.
`getImageData` throws an `IndexSizeError` when the width or the height of the
requested rectangle is zero. Every loop gets `fuel`. -/
def rankPhase (now : Nat → Nat) (fuel : Nat) (bm : Bitmap) (sampleRate : Nat) :
    Except JsError ExtractState := do
  if bm.width = 0 ∨ bm.height = 0 then throw JsError.indexSizeError
  let scanned ← scanY bm sampleRate fuel fuel 0 { colorMap := [], positionMap := [] }
  let sortedColors := sortColors scanned.colorMap
  rankLoop now bm scanned.positionMap sortedColors
    { palette := [], usedKeys := [], count := 0, clockReads := 0, randomReads := 0 }

/-- Lines 57-136: the ranked swatches, then the padding loop. -/
def extractProminentColors (now : Nat → Nat) (random : Nat → ℚ) (fuel : Nat)
    (bm : Bitmap) (sampleRate : Nat) : Except JsError (List Swatch) := do
  let st ← rankPhase now fuel bm sampleRate
  let st ← padLoop now random bm fuel st
  pure st.palette

/-! ## Double precision (lines 461-464) -/

/-- Rounding to the nearest integer, a tie going to the even neighbour. -/
def roundHalfEven (q : ℚ) : Int :=
  if q - ⌊q⌋ < 1 / 2 then ⌊q⌋
  else if 1 / 2 < q - ⌊q⌋ then ⌊q⌋ + 1
  else if ⌊q⌋ % 2 = 0 then ⌊q⌋ else ⌊q⌋ + 1

/-- The double nearest to `x`, a tie going to the even significand: the
result of an arithmetic operation of JavaScript whose exact value is `x`. The
significand has 53 bits; the range of the exponent is taken unbounded, so
overflow to `Infinity` and subnormal numbers are not represented. -/
def toDouble (x : ℚ) : ℚ :=
  if x = 0 then 0
  else (roundHalfEven (x / 2 ^ (Int.log 2 |x| - 52)) : ℚ) * 2 ^ (Int.log 2 |x| - 52)

/-! ## The `App` component: palette handlers (lines 349-470) -/

/-- The record returned by `getBoundingClientRect()`. -/
structure DOMRect where
  left : ℚ
  top : ℚ
  width : ℚ
  height : ℚ
deriving DecidableEq

/-- The state `dimensions`. -/
structure Dimensions where
  width : Nat
  height : Nat
deriving DecidableEq, Repr

/-- The state of the component that the palette handlers read and write.
`containerRef` is the bounding rectangle of `containerRef.current`, `none`
when the reference is not attached. -/
structure App where
  image : Option Bitmap
  dimensions : Dimensions
  palette : List Swatch
  activeId : Option Nat
  isDragging : Bool
  containerRef : Option DOMRect
deriving DecidableEq

/-- The record returned by `getColorAtPosition`. -/
structure ColorAt where
  hex : String
  r : Int
  g : Int
  b : Int
  h : Int
  s : Int
  l : Int
deriving DecidableEq, Repr

/-- The bytes `p[0], p[1], p[2]` read back after
`drawImage(image, x, y, 1, 1, 0, 0, 1, 1)` onto a fresh 1x1 canvas: the pixel
of the image at `(x, y)`; when `(x, y)` lies outside the image nothing is drawn
and the canvas keeps its initial transparent black. -/
def drawnPixel (image : Bitmap) (x y : Int) : Rgb :=
  if 0 ≤ x ∧ x < image.width ∧ 0 ≤ y ∧ y < image.height then
    let index : Nat := ((y * image.width + x) * 4).toNat
    { r := image.data.getD index 0, g := image.data.getD (index + 1) 0,
      b := image.data.getD (index + 2) 0 }
  else { r := 0, g := 0, b := 0 }

/-- Lines 426-439. -/
def getColorAtPosition (image : Option Bitmap) (x y : Int) : ColorAt :=
  match image with
  | none => { hex := "#000000", r := 0, g := 0, b := 0, h := 0, s := 0, l := 0 }
  | some image =>
    let p := drawnPixel image x y
    let hsl := rgbToHsl p.r p.g p.b
    { hex := rgbToHex p.r p.g p.b,
      r := p.r, g := p.g, b := p.b,
      h := hsl.h, s := hsl.s, l := hsl.l }

/-- Lines 441-452; `now` is the value of `Date.now()`, `random1` and `random2`
the values of the two calls to `Math.random()`. -/
def handleAddColor (now : Nat) (random1 random2 : ℚ) (app : App) : App :=
  if app.image.isNone then app
  else
    let offsetX : Int := ⌊(random1 - 1 / 2) * 50⌋
    let offsetY : Int := ⌊(random2 - 1 / 2) * 50⌋
    let newX : Int := ((app.dimensions.width / 2 : Nat) : Int) + offsetX
    let newY : Int := ((app.dimensions.height / 2 : Nat) : Int) + offsetY
    let newX : Int := Max.max 0 (Min.min newX ((app.dimensions.width : Int) - 1))
    let newY : Int := Max.max 0 (Min.min newY ((app.dimensions.height : Int) - 1))
    let c := getColorAtPosition app.image newX newY
    { app with
      palette := app.palette ++ [{
        id := now, x := newX, y := newY, color := c.hex,
        hex := some c.hex, r := c.r, g := c.g, b := c.b, h := c.h, s := c.s, l := c.l }] }

/-- Line 454. -/
def handleRemoveColor (id : Nat) (app : App) : App :=
  { app with palette := app.palette.filter (fun p => decide (p.id ≠ id)) }

/-- Lines 459-464 of `handleMove`, the mapping the specification calls
`toNative`: the pointer position relative to the rendered surface is clamped to
the rendered size, multiplied by the scale `dimensions.width / rect.width`,
respectively `dimensions.height / rect.height`, and floored. The quotient and
the product are operations on doubles, each rounded by `toDouble`; `Math.max`,
`Math.min` and `Math.floor` are exact. The sides of the rectangle are taken to
be non-zero (a zero side gives `Infinity` or `NaN` in JavaScript, which the
model does not represent). -/
def toNative (renderedWidth renderedHeight : ℚ) (bitmapWidth bitmapHeight : Nat)
    (pointerX pointerY : ℚ) : Int × Int :=
  let relativeX : ℚ := Max.max 0 (Min.min pointerX renderedWidth)
  let relativeY : ℚ := Max.max 0 (Min.min pointerY renderedHeight)
  let scaleX : ℚ := toDouble ((bitmapWidth : ℚ) / renderedWidth)
  let scaleY : ℚ := toDouble ((bitmapHeight : ℚ) / renderedHeight)
  let nativeX : Int := ⌊toDouble (relativeX * scaleX)⌋
  let nativeY : Int := ⌊toDouble (relativeY * scaleY)⌋
  (nativeX, nativeY)

/-- Lines 456-468. The differences `clientX - rect.left` and
`clientY - rect.top` are differences of doubles. -/
def handleMove (clientX clientY : ℚ) (app : App) : App :=
  match app.isDragging, app.activeId, app.containerRef, app.image with
  | true, some activeId, some rect, some _ =>
    let native := toNative rect.width rect.height app.dimensions.width app.dimensions.height
      (toDouble (clientX - rect.left)) (toDouble (clientY - rect.top))
    let nativeX := native.1
    let nativeY := native.2
    let c := getColorAtPosition app.image nativeX nativeY
    { app with
      palette := app.palette.map (fun p =>
        if p.id = activeId then
          { p with
            x := nativeX, y := nativeY, color := c.hex,
            hex := some c.hex, r := c.r, g := c.g, b := c.b, h := c.h, s := c.s, l := c.l }
        else p) }
  | _, _, _, _ => app

/-- Line 728, the `onMouseDown` of a marker. -/
def handleStartDrag (id : Nat) (app : App) : App :=
  { app with isDragging := true, activeId := some id }

/-- Line 470. -/
def handleEndDrag (app : App) : App :=
  { app with isDragging := false, activeId := none }

/-- Lines 376-389, the `onload` of `processFile`: the decoded image becomes the
current image and the palette is the extraction with the stride
`Math.max(1, Math.floor(Math.min(width, height) / 50))`. -/
def processFile (now : Nat → Nat) (random : Nat → ℚ) (fuel : Nat) (img : Bitmap) (app : App) :
    Except JsError App := do
  let extracted ← extractProminentColors now random fuel img
    (Max.max 1 (Min.min img.width img.height / 50))
  pure { app with
    image := some img,
    dimensions := { width := img.width, height := img.height },
    palette := extracted }

/-! ## Vocabulary of the properties -/

/-- The byte of channel `c` (0 red, 1 green, 2 blue, 3 alpha) of the pixel at `p`. -/
def Bitmap.channel (bm : Bitmap) (p : Pos) (c : Nat) : Nat :=
  bm.data.getD ((p.y * bm.width + p.x) * 4 + c) 0

/-- The bucket of the pixel at `p`: each colour channel quantized to
`floor (c / 64) * 64`. -/
def Bitmap.bucketAt (bm : Bitmap) (p : Pos) : Key :=
  (bm.channel p 0 / 64 * 64, bm.channel p 1 / 64 * 64, bm.channel p 2 / 64 * 64)

/-- The pixel at `p` counts for the bucket `key`: `p` is a pixel of the bitmap
on the sampling grid (both coordinates multiples of the stride), its alpha is at
least 128 and its channels quantize to `key`. -/
def Bitmap.Hit (bm : Bitmap) (stride : Nat) (key : Key) (p : Pos) : Prop :=
  p.x < bm.width ∧ p.y < bm.height ∧ stride ∣ p.x ∧ stride ∣ p.y ∧
    128 ≤ bm.channel p 3 ∧ bm.bucketAt p = key

instance (bm : Bitmap) (stride : Nat) (key : Key) (p : Pos) : Decidable (bm.Hit stride key p) := by
  unfold Bitmap.Hit; infer_instance

/-- The count of a bucket: the number of pixels that count for it. -/
def bucketCount (bm : Bitmap) (stride : Nat) (key : Key) : Nat :=
  ((Finset.range bm.width ×ˢ Finset.range bm.height).filter
    (fun q => bm.Hit stride key { x := q.1, y := q.2 })).card

/-- The order of the row-major scan: an earlier row, or the same row and an
earlier column. -/
def rowMajorLt (p q : Pos) : Prop := p.y < q.y ∨ (p.y = q.y ∧ p.x < q.x)

instance (p q : Pos) : Decidable (rowMajorLt p q) := by
  unfold rowMajorLt; infer_instance

/-- The pixel at `p` is the first one of the row-major scan that counts for `key`. -/
def IsFirstHit (bm : Bitmap) (stride : Nat) (key : Key) (p : Pos) : Prop :=
  bm.Hit stride key p ∧ ∀ q, bm.Hit stride key q → ¬ rowMajorLt q p

/-- The bucket to which the channels of a swatch quantize. -/
def Swatch.bucket (sw : Swatch) : Key :=
  ((sw.r / 64 * 64).toNat, (sw.g / 64 * 64).toNat, (sw.b / 64 * 64).toNat)

/-- The consistency of a swatch: `color` is the hex encoding of its channels
and `h, s, l` are their conversion. -/
def Swatch.Consistent (sw : Swatch) : Prop :=
  sw.color = rgbToHex sw.r sw.g sw.b ∧
    ({ h := sw.h, s := sw.s, l := sw.l } : Hsl) = rgbToHsl sw.r sw.g sw.b

/-- A source of `Math.random()`: every value lies in `[0, 1)`. -/
def RandomSource (random : Nat → ℚ) : Prop := ∀ n, 0 ≤ random n ∧ random n < 1

/-- The value of one uppercase hexadecimal digit. -/
def hexDigitValue (c : Char) : Option Nat :=
  if '0' ≤ c ∧ c ≤ '9' then some (c.toNat - 48)
  else if 'A' ≤ c ∧ c ≤ 'F' then some (c.toNat - 55)
  else none

/-- Decoding of a colour written `#RRGGBB` with uppercase digits: the three
two-digit base-16 pairs. -/
def decodeHex (color : String) : Option (Int × Int × Int) :=
  match color.data with
  | ['#', r1, r0, g1, g0, b1, b0] =>
    match hexDigitValue r1, hexDigitValue r0, hexDigitValue g1, hexDigitValue g0,
      hexDigitValue b1, hexDigitValue b0 with
    | some r1, some r0, some g1, some g0, some b1, some b0 =>
      some (((16 * r1 + r0 : Nat) : Int), ((16 * g1 + g0 : Nat) : Int),
        ((16 * b1 + b0 : Nat) : Int))
    | _, _, _, _, _, _ => none
  | _ => none

/-! ## Auxiliary definitions of the proofs -/

/-- The uppercase digit that `rgbToHex` writes for a value below 16. -/
def upperDigit (d : Nat) : Char := (Nat.digitChar d).toUpper

/-- The values taken by the counter of a loop `for (i = start; i < limit; i += step)`. -/
def loopIndices (limit step : Nat) : Nat → Nat → List Nat
  | 0, _ => []
  | fuel + 1, i => if i < limit then i :: loopIndices limit step fuel (i + step) else []

/-- The bucket key computed by the loop body at `p`, `none` when the pixel is
skipped for its alpha. -/
def hitKey (bm : Bitmap) (p : Pos) : Option Key :=
  if bm.channel p 3 < 128 then none else some (bm.bucketAt p)

/-- The effect of the loop body on the two maps, for a pixel that is not skipped. -/
def addHit (st : ScanState) (key : Key) (p : Pos) : ScanState :=
  let st : ScanState :=
    if (st.colorMap.get key).isNone then
      { colorMap := st.colorMap.set key { count := 0, r := key.1, g := key.2.1, b := key.2.2 },
        positionMap := st.positionMap.set key p }
    else st
  { st with colorMap := incrCount st.colorMap key }

/-- The effect of the loop body at `p` when all its reads succeed. -/
def scanStep (bm : Bitmap) (st : ScanState) (p : Pos) : ScanState :=
  match hitKey bm p with
  | none => st
  | some key => addHit st key p

/-- The swatch pushed for the pixel at `p` with the identifier `id`. -/
def swatchAt (bm : Bitmap) (id : Nat) (p : Pos) : Swatch :=
  { id := id, x := p.x, y := p.y,
    color := rgbToHex (bm.channel p 0) (bm.channel p 1) (bm.channel p 2),
    hex := none,
    r := bm.channel p 0, g := bm.channel p 1, b := bm.channel p 2,
    h := (rgbToHsl (bm.channel p 0) (bm.channel p 1) (bm.channel p 2)).h,
    s := (rgbToHsl (bm.channel p 0) (bm.channel p 1) (bm.channel p 2)).s,
    l := (rgbToHsl (bm.channel p 0) (bm.channel p 1) (bm.channel p 2)).l }

/-- The swatches pushed for the pixels of a list, the first one being the
`k`-th swatch of the palette. -/
def swatchesFrom (now : Nat → Nat) (bm : Bitmap) : Nat → List Pos → List Swatch
  | _, [] => []
  | k, p :: ps => swatchAt bm (now k + k) p :: swatchesFrom now bm (k + 1) ps

/-- The pixels visited by the two sampling loops, in the order of the visit. -/
def scanCoords (bm : Bitmap) (sampleRate fuel : Nat) : List Pos :=
  (loopIndices bm.height sampleRate fuel 0).flatMap (fun y =>
    (loopIndices bm.width sampleRate fuel 0).map (fun x => ({ x := x, y := y } : Pos)))

/-- The invariant of the sampling loops after the pixels `pre` have been visited. -/
structure ScanInv (bm : Bitmap) (pre : List Pos) (st : ScanState) : Prop where
  keys_eq : st.colorMap.map Prod.fst = st.positionMap.map Prod.fst
  nodup : (st.colorMap.map Prod.fst).Nodup
  bucket : ∀ e ∈ st.colorMap, (e.2.r, e.2.g, e.2.b) = e.1 ∧
    e.2.count = pre.countP (fun p => decide (hitKey bm p = some e.1))
  complete : ∀ p ∈ pre, ∀ k, hitKey bm p = some k → k ∈ st.colorMap.map Prod.fst
  first : ∀ e ∈ st.positionMap, e.2 ∈ pre ∧ hitKey bm e.2 = some e.1 ∧
    ∀ p ∈ pre, hitKey bm p = some e.1 → ¬ rowMajorLt p e.2
  order : (st.positionMap.map Prod.snd).Pairwise rowMajorLt

/-- The key that the loop over `sortedColors` rebuilds from a bucket. -/
def Bucket.key (c : Bucket) : Key := (c.r, c.g, c.b)

/-- The order of two buckets in `sortedColors`: the count does not increase,
and of two buckets with the same count the one placed first is related by `T`
to the other. -/
def RankOrder (T : Bucket → Bucket → Prop) (a b : Bucket) : Prop :=
  b.count ≤ a.count ∧ (a.count ≤ b.count → T a b)

/-- A 2x2 bitmap: two reds of one bucket, one green, one nearly transparent blue. -/
def exampleBitmap : Bitmap :=
  { width := 2, height := 2,
    data := [255, 0, 0, 255, 0, 255, 0, 255, 250, 0, 0, 255, 0, 0, 255, 10] }

/-- The state of the component before any image is loaded. -/
def initialApp : App :=
  { image := none, dimensions := { width := 0, height := 0 }, palette := [],
    activeId := none, isDragging := false, containerRef := none }

/-! ## Further vocabulary of the properties -/

/-- The clamp of `x` to the interval from `lo` to `hi`. -/
def clamp (x lo hi : ℚ) : ℚ := Max.max lo (Min.min x hi)

/-- The clamp of a channel to `[0, 255]`. -/
def clampChannel (c : Int) : Int := Max.max 0 (Min.min c 255)

/-- Every pixel of the bitmap has the colour `(r, g, b)`. -/
def Bitmap.Uniform (bm : Bitmap) (r g b : Nat) : Prop :=
  ∀ p : Pos, p.x < bm.width → p.y < bm.height →
    bm.channel p 0 = r ∧ bm.channel p 1 = g ∧ bm.channel p 2 = b

/-- The bitmap of the given size whose pixels all are `(r, g, b, a)`. -/
def solidBitmap (width height r g b a : Nat) : Bitmap :=
  { width := width, height := height,
    data := (List.replicate (width * height) [r, g, b, a]).flatten }

/-- The buckets that are not empty: those of the pixels on the sampling grid
whose alpha is at least 128. -/
def nonEmptyBuckets (bm : Bitmap) (stride : Nat) : Finset Key :=
  ((Finset.range bm.width ×ˢ Finset.range bm.height).filter
    (fun q => stride ∣ q.1 ∧ stride ∣ q.2 ∧ 128 ≤ bm.channel { x := q.1, y := q.2 } 3)).image
    (fun q => bm.bucketAt { x := q.1, y := q.2 })

/-! # Properties -/

/-! ## Colour conversions -/

theorem upperDigit_spec : ∀ d, d < 16 →
    upperDigit d ∈ "0123456789ABCDEF".data ∧ hexDigitValue (upperDigit d) = some d := by
  decide

theorem shl_channel {c : Int} (h : 0 ≤ c ∧ c ≤ 255) (k : Nat) (hk : k ≤ 16) :
    shl c k = c * 2 ^ k := by
  have h2 : (2 : Int) ^ k ≤ 2 ^ 16 := pow_le_pow_right₀ (by norm_num) hk
  have h3 : (0 : Int) < 2 ^ k := by positivity
  have h4 : c * 2 ^ k ≤ 255 * 2 ^ 16 := mul_le_mul h.2 h2 h3.le (by norm_num)
  have h5 : 0 ≤ c * 2 ^ k := mul_nonneg h.1 h3.le
  norm_num at h4
  unfold shl toInt32
  have : (c + 2147483648) % 4294967296 - 2147483648 = c := by omega
  rw [this]
  omega

theorem toDigits_seven (N : Nat) (h1 : 16777216 ≤ N) (h2 : N < 33554432) :
    Nat.toDigits 16 N =
      [Nat.digitChar 1, Nat.digitChar (N / 1048576 % 16), Nat.digitChar (N / 65536 % 16),
        Nat.digitChar (N / 4096 % 16), Nat.digitChar (N / 256 % 16),
        Nat.digitChar (N / 16 % 16), Nat.digitChar (N % 16)] := by
  obtain ⟨k, rfl⟩ : ∃ k, N = k + 6 := ⟨N - 6, by omega⟩
  have e1 : (k + 6) / 16 ≠ 0 := by omega
  have e2 : (k + 6) / 16 / 16 ≠ 0 := by omega
  have e3 : (k + 6) / 16 / 16 / 16 ≠ 0 := by omega
  have e4 : (k + 6) / 16 / 16 / 16 / 16 ≠ 0 := by omega
  have e5 : (k + 6) / 16 / 16 / 16 / 16 / 16 ≠ 0 := by omega
  have e6 : (k + 6) / 16 / 16 / 16 / 16 / 16 / 16 ≠ 0 := by omega
  have e7 : (k + 6) / 16 / 16 / 16 / 16 / 16 / 16 / 16 = 0 := by omega
  have d6 : (k + 6) / 16 / 16 / 16 / 16 / 16 / 16 % 16 = 1 := by omega
  have d5 : (k + 6) / 16 / 16 / 16 / 16 / 16 % 16 = (k + 6) / 1048576 % 16 := by omega
  have d4 : (k + 6) / 16 / 16 / 16 / 16 % 16 = (k + 6) / 65536 % 16 := by omega
  have d3 : (k + 6) / 16 / 16 / 16 % 16 = (k + 6) / 4096 % 16 := by omega
  have d2 : (k + 6) / 16 / 16 % 16 = (k + 6) / 256 % 16 := by omega
  simp only [Nat.toDigits, Nat.toDigitsCore, e1, e2, e3, e4, e5, e6, e7, if_true, if_false,
    d6, d5, d4, d3, d2]

theorem rgbToHex_digits (r g b : Nat) (hr : r ≤ 255) (hg : g ≤ 255) (hb : b ≤ 255) :
    rgbToHex r g b = String.mk ['#', upperDigit (r / 16), upperDigit (r % 16),
      upperDigit (g / 16), upperDigit (g % 16), upperDigit (b / 16), upperDigit (b % 16)] := by
  have e1 : shl 1 24 = 16777216 := by decide
  have e2 := shl_channel (c := (r : Int)) ⟨by omega, by omega⟩ 16 (by norm_num)
  have e3 := shl_channel (c := (g : Int)) ⟨by omega, by omega⟩ 8 (by norm_num)
  have e4 : shl 1 24 + shl r 16 + shl g 8 + b = ((16777216 + r * 65536 + g * 256 + b : Nat) : Int) := by
    rw [e1, e2, e3]; push_cast; norm_num
  unfold rgbToHex
  rw [e4]
  unfold toString16
  rw [if_neg (by omega), Int.natAbs_ofNat, toDigits_seven _ (by omega) (by omega)]
  have d5 : (16777216 + r * 65536 + g * 256 + b) / 1048576 % 16 = r / 16 := by omega
  have d4 : (16777216 + r * 65536 + g * 256 + b) / 65536 % 16 = r % 16 := by omega
  have d3 : (16777216 + r * 65536 + g * 256 + b) / 4096 % 16 = g / 16 := by omega
  have d2 : (16777216 + r * 65536 + g * 256 + b) / 256 % 16 = g % 16 := by omega
  have d1 : (16777216 + r * 65536 + g * 256 + b) / 16 % 16 = b / 16 := by omega
  have d0 : (16777216 + r * 65536 + g * 256 + b) % 16 = b % 16 := by omega
  rw [d5, d4, d3, d2, d1, d0]
  rfl

theorem rgbToHex_decode (r g b : Int) (hr : 0 ≤ r ∧ r ≤ 255) (hg : 0 ≤ g ∧ g ≤ 255)
    (hb : 0 ≤ b ∧ b ≤ 255) :
    (rgbToHex r g b).length = 7 ∧
    (rgbToHex r g b).data.head? = some '#' ∧
    (∀ c ∈ (rgbToHex r g b).data.tail, c ∈ "0123456789ABCDEF".data) ∧
    decodeHex (rgbToHex r g b) = some (r, g, b) := by
  obtain ⟨r, rfl⟩ := Int.eq_ofNat_of_zero_le hr.1
  obtain ⟨g, rfl⟩ := Int.eq_ofNat_of_zero_le hg.1
  obtain ⟨b, rfl⟩ := Int.eq_ofNat_of_zero_le hb.1
  have hr2 : r ≤ 255 := by omega
  have hg2 : g ≤ 255 := by omega
  have hb2 : b ≤ 255 := by omega
  rw [rgbToHex_digits r g b hr2 hg2 hb2]
  obtain ⟨m1, v1⟩ := upperDigit_spec (r / 16) (by omega)
  obtain ⟨m2, v2⟩ := upperDigit_spec (r % 16) (by omega)
  obtain ⟨m3, v3⟩ := upperDigit_spec (g / 16) (by omega)
  obtain ⟨m4, v4⟩ := upperDigit_spec (g % 16) (by omega)
  obtain ⟨m5, v5⟩ := upperDigit_spec (b / 16) (by omega)
  obtain ⟨m6, v6⟩ := upperDigit_spec (b % 16) (by omega)
  refine ⟨rfl, rfl, ?_, ?_⟩
  · intro c hc
    simp only [List.tail_cons, List.mem_cons, List.mem_singleton, List.not_mem_nil, or_false] at hc
    rcases hc with rfl | rfl | rfl | rfl | rfl | rfl <;> assumption
  · simp only [decodeHex, v1, v2, v3, v4, v5, v6]
    congr 3 <;> omega

/-- C5. For channels in `[0, 255]`, `rgbToHex` is a string of 7 characters, a
`#` followed by six characters among `0-9A-F`; decoding its three pairs of
base-16 digits gives the channels back, so that two triples of valid channels
with the same encoding are equal. -/
theorem rgbToHex_roundtrip (r g b : Int) (hr : 0 ≤ r ∧ r ≤ 255) (hg : 0 ≤ g ∧ g ≤ 255)
    (hb : 0 ≤ b ∧ b ≤ 255) :
    (rgbToHex r g b).length = 7 ∧
    (rgbToHex r g b).data.head? = some '#' ∧
    (∀ c ∈ (rgbToHex r g b).data.tail, c ∈ "0123456789ABCDEF".data) ∧
    decodeHex (rgbToHex r g b) = some (r, g, b) ∧
    (∀ r2 g2 b2 : Int, (0 ≤ r2 ∧ r2 ≤ 255) → (0 ≤ g2 ∧ g2 ≤ 255) → (0 ≤ b2 ∧ b2 ≤ 255) →
      rgbToHex r2 g2 b2 = rgbToHex r g b → r2 = r ∧ g2 = g ∧ b2 = b) := by
  obtain ⟨h1, h2, h3, h4⟩ := rgbToHex_decode r g b hr hg hb
  refine ⟨h1, h2, h3, h4, fun r2 g2 b2 hr2 hg2 hb2 heq => ?_⟩
  have h5 := (rgbToHex_decode r2 g2 b2 hr2 hg2 hb2).2.2.2
  rw [heq, h4] at h5
  simp only [Option.some.injEq, Prod.mk.injEq] at h5
  exact ⟨h5.1.symm, h5.2.1.symm, h5.2.2.symm⟩

theorem rgbToHex_roundtrip_witness :
    (rgbToHex 255 0 1).length = 7 ∧
    (rgbToHex 255 0 1).data.head? = some '#' ∧
    (∀ c ∈ (rgbToHex 255 0 1).data.tail, c ∈ "0123456789ABCDEF".data) ∧
    decodeHex (rgbToHex 255 0 1) = some (255, 0, 1) ∧
    (∀ r2 g2 b2 : Int, (0 ≤ r2 ∧ r2 ≤ 255) → (0 ≤ g2 ∧ g2 ≤ 255) → (0 ≤ b2 ∧ b2 ≤ 255) →
      rgbToHex r2 g2 b2 = rgbToHex 255 0 1 → r2 = 255 ∧ g2 = 0 ∧ b2 = 1) :=
  rgbToHex_roundtrip 255 0 1 (by decide) (by decide) (by decide)

theorem mathRound_bounds {x : ℚ} {n : ℤ} (h0 : 0 ≤ x) (h1 : x ≤ n) :
    0 ≤ mathRound x ∧ mathRound x ≤ n := by
  unfold mathRound
  constructor
  · exact Int.floor_nonneg.mpr (by linarith)
  · rw [← Int.lt_add_one_iff, Int.floor_lt]
    push_cast
    linarith

theorem channel_unit {c : Int} (h : 0 ≤ c ∧ c ≤ 255) :
    (0 : ℚ) ≤ (c : ℚ) / 255 ∧ (c : ℚ) / 255 ≤ 1 := by
  have h0 : (0 : ℚ) ≤ (c : ℚ) := by exact_mod_cast h.1
  have h1 : (c : ℚ) ≤ 255 := by exact_mod_cast h.2
  constructor
  · positivity
  · rw [div_le_one (by norm_num)]; exact h1

theorem ratio_bounds {u d : ℚ} (hd : 0 < d) (h1 : -d ≤ u) (h2 : u ≤ d) :
    -1 ≤ u / d ∧ u / d ≤ 1 := by
  constructor
  · rw [le_div_iff₀ hd]; linarith
  · rw [div_le_iff₀ hd]; linarith

/-- C6, as amended. For channels in `[0, 255]`, `rgbToHsl` returns integers with
`0 ≤ h ≤ 360`, `0 ≤ s ≤ 100` and `0 ≤ l ≤ 100`. -/
theorem rgbToHsl_range (r g b : Int) (hr : 0 ≤ r ∧ r ≤ 255) (hg : 0 ≤ g ∧ g ≤ 255)
    (hb : 0 ≤ b ∧ b ≤ 255) :
    (0 ≤ (rgbToHsl r g b).h ∧ (rgbToHsl r g b).h ≤ 360) ∧
    (0 ≤ (rgbToHsl r g b).s ∧ (rgbToHsl r g b).s ≤ 100) ∧
    (0 ≤ (rgbToHsl r g b).l ∧ (rgbToHsl r g b).l ≤ 100) := by
  obtain ⟨hR0, hR1⟩ := channel_unit hr
  obtain ⟨hG0, hG1⟩ := channel_unit hg
  obtain ⟨hB0, hB1⟩ := channel_unit hb
  unfold rgbToHsl
  simp only []
  generalize (r : ℚ) / 255 = R at *
  generalize (g : ℚ) / 255 = G at *
  generalize (b : ℚ) / 255 = B at *
  have hM1 : max R (max G B) ≤ 1 := max_le hR1 (max_le hG1 hB1)
  have hm0 : 0 ≤ min R (min G B) := le_min hR0 (le_min hG0 hB0)
  have hRM : R ≤ max R (max G B) := le_max_left _ _
  have hGM : G ≤ max R (max G B) := le_trans (le_max_left _ _) (le_max_right _ _)
  have hBM : B ≤ max R (max G B) := le_trans (le_max_right _ _) (le_max_right _ _)
  have hRm : min R (min G B) ≤ R := min_le_left _ _
  have hGm : min R (min G B) ≤ G := le_trans (min_le_right _ _) (min_le_left _ _)
  have hBm : min R (min G B) ≤ B := le_trans (min_le_right _ _) (min_le_right _ _)
  generalize max R (max G B) = M at *
  generalize min R (min G B) = m at *
  have hl : 0 ≤ mathRound ((M + m) / 2 * 100) ∧ mathRound ((M + m) / 2 * 100) ≤ 100 :=
    mathRound_bounds (n := 100) (by linarith) (by push_cast; linarith)
  by_cases hMm : M = m
  · simp only [hMm, if_true]
    subst hMm
    refine ⟨?_, ?_, hl⟩ <;> norm_num [mathRound]
  · simp only [hMm, if_false]
    have hd : 0 < M - m := by
      have : m ≤ M := le_trans hRm hRM
      exact sub_pos.mpr (lt_of_le_of_ne this (Ne.symm hMm))
    refine ⟨?_, ?_, hl⟩
    · -- hue
      have key : ∀ x : ℚ, 0 ≤ x → x < 6 → 0 ≤ mathRound (x / 6 * 360) ∧ mathRound (x / 6 * 360) ≤ 360 :=
        fun x h0 h6 => mathRound_bounds (n := 360) (by linarith) (by push_cast; linarith)
      apply key
      · split_ifs
        · have := (ratio_bounds hd (u := G - B) (by linarith) (by linarith)).1; linarith
        · have := (ratio_bounds hd (u := G - B) (by linarith) (by linarith)).1
          have h2 : 0 ≤ (G - B) / (M - m) := div_nonneg (by linarith) hd.le
          linarith
        · have := (ratio_bounds hd (u := B - R) (by linarith) (by linarith)).1; linarith
        · have := (ratio_bounds hd (u := R - G) (by linarith) (by linarith)).1; linarith
      · split_ifs
        · have h2 : (G - B) / (M - m) < 0 := div_neg_of_neg_of_pos (by linarith) hd
          linarith
        · have := (ratio_bounds hd (u := G - B) (by linarith) (by linarith)).2; linarith
        · have := (ratio_bounds hd (u := B - R) (by linarith) (by linarith)).2; linarith
        · have := (ratio_bounds hd (u := R - G) (by linarith) (by linarith)).2; linarith
    · -- saturation
      have key : ∀ x : ℚ, 0 ≤ x → x ≤ 1 → 0 ≤ mathRound (x * 100) ∧ mathRound (x * 100) ≤ 100 :=
        fun x h0 h1 => mathRound_bounds (n := 100) (by linarith) (by push_cast; linarith)
      split_ifs with hl2
      · have hpos : 0 < 2 - M - m := by linarith
        apply key
        · exact div_nonneg hd.le hpos.le
        · rw [div_le_one hpos]; linarith
      · have hpos : 0 < M + m := by linarith
        apply key
        · exact div_nonneg hd.le hpos.le
        · rw [div_le_one hpos]; linarith

theorem rgbToHsl_range_witness :
    (0 ≤ (rgbToHsl 200 100 50).h ∧ (rgbToHsl 200 100 50).h ≤ 360) ∧
    (0 ≤ (rgbToHsl 200 100 50).s ∧ (rgbToHsl 200 100 50).s ≤ 100) ∧
    (0 ≤ (rgbToHsl 200 100 50).l ∧ (rgbToHsl 200 100 50).l ≤ 100) :=
  rgbToHsl_range 200 100 50 (by decide) (by decide) (by decide)

/-- C6 fails as stated: the colour `(255, 0, 1)`, just below the red wrap-around,
has the hue `359.76...`, which `Math.round` takes to 360. -/
theorem rgbToHsl_hue_reaches_360 :
    (rgbToHsl 255 0 1).h = 360 ∧ ¬ (rgbToHsl 255 0 1).h < 360 := by
  have h : rgbToHsl 255 0 1 = ⟨360, 100, 50⟩ := by norm_num [rgbToHsl, mathRound]
  rw [h]; decide

/-! ## Reads and the sampling loops -/

theorem dataAt_ofNat (data : List Nat) (i : Nat) (h : i < data.length) :
    dataAt data (i : Int) = .ok (data.getD i 0) := by
  unfold dataAt
  rw [if_neg (by omega), Int.toNat_ofNat]
  simp [List.getD, List.getElem?_eq_getElem h]

theorem pixel_index_lt (bm : Bitmap) (hlen : bm.data.length = 4 * bm.width * bm.height)
    {x y : Nat} (hx : x < bm.width) (hy : y < bm.height) :
    (y * bm.width + x) * 4 + 3 < bm.data.length := by
  have h1 : (y + 1) * bm.width ≤ bm.height * bm.width := Nat.mul_le_mul_right _ hy
  have h2 : bm.height * bm.width = bm.width * bm.height := Nat.mul_comm _ _
  have h3 : 4 * bm.width * bm.height = 4 * (bm.width * bm.height) := Nat.mul_assoc _ _ _
  rw [Nat.succ_mul] at h1
  omega

theorem scanPixel_ok (bm : Bitmap) (hlen : bm.data.length = 4 * bm.width * bm.height)
    {x y : Nat} (hx : x < bm.width) (hy : y < bm.height) (st : ScanState) :
    scanPixel bm x y st = .ok (scanStep bm st { x := x, y := y }) := by
  have hi := pixel_index_lt bm hlen hx hy
  have e0 := dataAt_ofNat bm.data ((y * bm.width + x) * 4) (by omega)
  have e1 := dataAt_ofNat bm.data ((y * bm.width + x) * 4 + 1) (by omega)
  have e2 := dataAt_ofNat bm.data ((y * bm.width + x) * 4 + 2) (by omega)
  have e3 := dataAt_ofNat bm.data ((y * bm.width + x) * 4 + 3) (by omega)
  rw [Nat.cast_add] at e1 e2 e3
  unfold scanPixel
  simp only [Nat.cast_ofNat, Nat.cast_one] at e1 e2 e3
  simp only [e0, e1, e2, e3, bind, Except.bind, pure, Except.pure]
  unfold scanStep hitKey Bitmap.bucketAt Bitmap.channel addHit
  simp only [Nat.add_zero]
  by_cases ha : bm.data.getD ((y * bm.width + x) * 4 + 3) 0 < 128
  · simp only [ha, if_true]
  · simp only [ha, if_false]

theorem scanX_eq (bm : Bitmap) (hlen : bm.data.length = 4 * bm.width * bm.height)
    {sampleRate y : Nat} (hs : 1 ≤ sampleRate) (hy : y < bm.height) :
    ∀ (fuel x : Nat) (st : ScanState), bm.width ≤ x + fuel →
      scanX bm sampleRate y fuel x st =
        .ok ((loopIndices bm.width sampleRate fuel x).foldl
          (fun st x => scanStep bm st { x := x, y := y }) st) := by
  intro fuel
  induction fuel with
  | zero =>
    intro x st h
    simp only [scanX, loopIndices, List.foldl_nil]
    rw [if_neg (by omega)]
  | succ fuel ih =>
    intro x st h
    simp only [scanX, loopIndices]
    split_ifs with hx
    · rw [scanPixel_ok bm hlen hx hy]
      simp only [bind, Except.bind, List.foldl_cons]
      exact ih _ _ (by omega)
    · rfl

theorem scanY_eq (bm : Bitmap) (hlen : bm.data.length = 4 * bm.width * bm.height)
    {sampleRate fuelX : Nat} (hs : 1 ≤ sampleRate) (hfx : bm.width ≤ fuelX) :
    ∀ (fuel y : Nat) (st : ScanState), bm.height ≤ y + fuel →
      scanY bm sampleRate fuelX fuel y st =
        .ok (((loopIndices bm.height sampleRate fuel y).flatMap (fun y =>
          (loopIndices bm.width sampleRate fuelX 0).map (fun x => ({ x := x, y := y } : Pos)))).foldl
          (scanStep bm) st) := by
  intro fuel
  induction fuel with
  | zero =>
    intro y st h
    simp only [scanY, loopIndices, List.flatMap_nil, List.foldl_nil]
    rw [if_neg (by omega)]
  | succ fuel ih =>
    intro y st h
    simp only [scanY, loopIndices]
    split_ifs with hy
    · rw [scanX_eq bm hlen hs hy fuelX 0 st (by omega)]
      simp only [bind, Except.bind, List.flatMap_cons, List.foldl_append, List.foldl_map]
      exact ih _ _ (by omega)
    · rfl

theorem mem_loopIndices {limit step : Nat} (hs : 1 ≤ step) :
    ∀ (fuel i j : Nat), limit ≤ i + fuel →
      (j ∈ loopIndices limit step fuel i ↔ i ≤ j ∧ j < limit ∧ step ∣ (j - i)) := by
  intro fuel
  induction fuel with
  | zero =>
    intro i j h
    simp only [loopIndices, List.not_mem_nil, false_iff]
    omega
  | succ fuel ih =>
    intro i j h
    simp only [loopIndices]
    split_ifs with hi
    · rw [List.mem_cons, ih (i + step) j (by omega)]
      constructor
      · rintro (rfl | ⟨h1, h2, h3⟩)
        · exact ⟨le_refl _, hi, by simp⟩
        · refine ⟨by omega, h2, ?_⟩
          have : j - i = (j - (i + step)) + step := by omega
          rw [this]
          exact Dvd.dvd.add h3 (dvd_refl _)
      · rintro ⟨h1, h2, h3⟩
        by_cases hij : j = i
        · exact Or.inl hij
        · right
          obtain ⟨c, hc⟩ := h3
          have hc0 : c ≠ 0 := by
            rintro rfl
            omega
          obtain ⟨c, rfl⟩ := Nat.exists_eq_succ_of_ne_zero hc0
          rw [Nat.mul_succ] at hc
          refine ⟨by omega, h2, ⟨c, by omega⟩⟩
    · simp only [List.not_mem_nil, false_iff]
      omega

theorem pairwise_loopIndices {limit step : Nat} (hs : 1 ≤ step) :
    ∀ (fuel i : Nat), (loopIndices limit step fuel i).Pairwise (· < ·) ∧
      ∀ j ∈ loopIndices limit step fuel i, i ≤ j := by
  intro fuel
  induction fuel with
  | zero => intro i; simp [loopIndices]
  | succ fuel ih =>
    intro i
    simp only [loopIndices]
    split_ifs with hi
    · obtain ⟨h1, h2⟩ := ih (i + step)
      refine ⟨List.pairwise_cons.mpr ⟨fun j hj => ?_, h1⟩, fun j hj => ?_⟩
      · have := h2 j hj; omega
      · rcases List.mem_cons.mp hj with rfl | hj
        · exact le_refl _
        · have := h2 j hj; omega
    · simp

/-! ## The sampling grid -/

theorem mem_scanCoords (bm : Bitmap) {sampleRate fuel : Nat} (hs : 1 ≤ sampleRate)
    (hw : bm.width ≤ fuel) (hh : bm.height ≤ fuel) (p : Pos) :
    p ∈ scanCoords bm sampleRate fuel ↔
      p.x < bm.width ∧ p.y < bm.height ∧ sampleRate ∣ p.x ∧ sampleRate ∣ p.y := by
  unfold scanCoords
  simp only [List.mem_flatMap, List.mem_map, mem_loopIndices hs fuel 0 _ (by omega : bm.height ≤ 0 + fuel),
    mem_loopIndices hs fuel 0 _ (by omega : bm.width ≤ 0 + fuel), Nat.zero_le, true_and, Nat.sub_zero]
  constructor
  · rintro ⟨y, ⟨hy1, hy2⟩, x, ⟨hx1, hx2⟩, rfl⟩
    exact ⟨hx1, hy1, hx2, hy2⟩
  · rintro ⟨h1, h2, h3, h4⟩
    exact ⟨p.y, ⟨h2, h4⟩, p.x, ⟨h1, h3⟩, rfl⟩

theorem pairwise_scanCoords (bm : Bitmap) {sampleRate : Nat} (hs : 1 ≤ sampleRate) (fuel : Nat) :
    (scanCoords bm sampleRate fuel).Pairwise rowMajorLt := by
  unfold scanCoords
  rw [List.pairwise_flatMap]
  constructor
  · intro y _
    rw [List.pairwise_map]
    exact ((pairwise_loopIndices hs fuel 0).1).imp (fun h => Or.inr ⟨rfl, h⟩)
  · refine ((pairwise_loopIndices hs fuel 0).1).imp ?_
    intro y1 y2 hlt p hp q hq
    obtain ⟨_, _, rfl⟩ := List.mem_map.mp hp
    obtain ⟨_, _, rfl⟩ := List.mem_map.mp hq
    exact Or.inl hlt

theorem rowMajorLt_irrefl (p : Pos) : ¬ rowMajorLt p p := by
  unfold rowMajorLt; omega

theorem rowMajorLt_trichotomy (p q : Pos) : rowMajorLt p q ∨ p = q ∨ rowMajorLt q p := by
  unfold rowMajorLt
  rcases p with ⟨px, py⟩
  rcases q with ⟨qx, qy⟩
  simp only [Pos.mk.injEq]
  omega

theorem nodup_scanCoords (bm : Bitmap) {sampleRate : Nat} (hs : 1 ≤ sampleRate) (fuel : Nat) :
    (scanCoords bm sampleRate fuel).Nodup := by
  unfold List.Nodup
  refine (pairwise_scanCoords bm hs fuel).imp ?_
  intro p q h e
  subst e
  exact rowMajorLt_irrefl _ h

/-! ## The maps as JavaScript objects -/

theorem JsObject.get_isNone_iff {α : Type} (obj : JsObject α) (key : Key) :
    (obj.get key).isNone = true ↔ key ∉ obj.map Prod.fst := by
  unfold JsObject.get
  simp only [Option.isNone_iff_eq_none, Option.map_eq_none', List.find?_eq_none, decide_eq_true_eq,
    List.mem_map, not_exists, not_and]

theorem JsObject.get_of_mem {α : Type} (obj : JsObject α) (hnd : (obj.map Prod.fst).Nodup)
    {key : Key} {v : α} (h : (key, v) ∈ obj) : obj.get key = some v := by
  unfold JsObject.get
  induction obj with
  | nil => cases h
  | cons e obj ih =>
    rw [List.map_cons, List.nodup_cons] at hnd
    rcases List.mem_cons.mp h with rfl | h
    · simp
    · have hne : e.1 ≠ key := by
        rintro rfl
        exact hnd.1 (List.mem_map.mpr ⟨_, h, rfl⟩)
      rw [List.find?_cons_of_neg _ (by simpa using hne)]
      exact ih hnd.2 h

theorem JsObject.set_of_not_mem {α : Type} (obj : JsObject α) {key : Key} (v : α)
    (h : key ∉ obj.map Prod.fst) : obj.set key v = obj ++ [(key, v)] := by
  unfold JsObject.set
  have := (JsObject.get_isNone_iff obj key).mpr h
  rw [if_neg]
  simpa [Option.isNone_iff_eq_none] using this

theorem map_fst_incrCount (colorMap : JsObject Bucket) (key : Key) :
    (incrCount colorMap key).map Prod.fst = colorMap.map Prod.fst := by
  unfold incrCount
  rw [List.map_map]
  apply List.map_congr_left
  intro e _
  simp only [Function.comp]
  split_ifs <;> rfl

theorem incrCount_of_not_mem (colorMap : JsObject Bucket) {key : Key}
    (h : key ∉ colorMap.map Prod.fst) : incrCount colorMap key = colorMap := by
  unfold incrCount
  conv_rhs => rw [← List.map_id colorMap]
  apply List.map_congr_left
  intro e he
  rw [if_neg]
  · rfl
  · rintro rfl
    exact h (List.mem_map.mpr ⟨_, he, rfl⟩)

theorem addHit_new (st : ScanState) {key : Key} (p : Pos)
    (h : key ∉ st.colorMap.map Prod.fst) (hk : st.colorMap.map Prod.fst = st.positionMap.map Prod.fst) :
    addHit st key p =
      { colorMap := st.colorMap ++ [(key, { count := 1, r := key.1, g := key.2.1, b := key.2.2 })],
        positionMap := st.positionMap ++ [(key, p)] } := by
  unfold addHit
  simp only [(JsObject.get_isNone_iff st.colorMap key).mpr h, if_true]
  rw [JsObject.set_of_not_mem _ _ h, JsObject.set_of_not_mem _ _ (hk ▸ h)]
  unfold incrCount
  rw [List.map_append]
  have := incrCount_of_not_mem st.colorMap h
  unfold incrCount at this
  rw [this]
  simp

theorem addHit_old (st : ScanState) {key : Key} (p : Pos)
    (h : key ∈ st.colorMap.map Prod.fst) :
    addHit st key p = { colorMap := incrCount st.colorMap key, positionMap := st.positionMap } := by
  unfold addHit
  have : ¬ (st.colorMap.get key).isNone = true := by
    rw [JsObject.get_isNone_iff]; exact not_not.mpr h
  rw [Bool.not_eq_true] at this
  simp only [this, Bool.false_eq_true, if_false]

/-! ## The invariant of the sampling loops -/

theorem rowMajorLt_asymm {p q : Pos} (h : rowMajorLt p q) : ¬ rowMajorLt q p := by
  unfold rowMajorLt at *; omega

theorem ScanInv.init (bm : Bitmap) : ScanInv bm [] { colorMap := [], positionMap := [] } where
  keys_eq := rfl
  nodup := List.nodup_nil
  bucket := fun e he => by cases he
  complete := fun p hp => by cases hp
  first := fun e he => by cases he
  order := List.Pairwise.nil

theorem countP_snoc_hit (bm : Bitmap) (pre : List Pos) (p : Pos) (key : Key) :
    (pre ++ [p]).countP (fun p => decide (hitKey bm p = some key)) =
      pre.countP (fun p => decide (hitKey bm p = some key)) +
        (if hitKey bm p = some key then 1 else 0) := by
  rw [List.countP_append, List.countP_cons, List.countP_nil]
  simp

theorem ScanInv.step {bm : Bitmap} {pre : List Pos} {st : ScanState} (inv : ScanInv bm pre st)
    (p : Pos) (hp : ∀ q ∈ pre, rowMajorLt q p) : ScanInv bm (pre ++ [p]) (scanStep bm st p) := by
  have hfirst_old : ∀ e ∈ st.positionMap, e.2 ∈ pre ++ [p] ∧ hitKey bm e.2 = some e.1 ∧
      ∀ q ∈ pre ++ [p], hitKey bm q = some e.1 → ¬ rowMajorLt q e.2 := by
    intro e he
    obtain ⟨h1, h2, h3⟩ := inv.first e he
    refine ⟨List.mem_append_left _ h1, h2, fun q hq hk => ?_⟩
    rcases List.mem_append.mp hq with hq | hq
    · exact h3 q hq hk
    · rw [List.mem_singleton] at hq
      subst hq
      exact rowMajorLt_asymm (hp _ h1)
  unfold scanStep
  cases hk : hitKey bm p with
  | none =>
    simp only []
    refine ⟨inv.keys_eq, inv.nodup, fun e he => ?_, fun q hq k hqk => ?_, fun e he => ?_, inv.order⟩
    · obtain ⟨h1, h2⟩ := inv.bucket e he
      refine ⟨h1, ?_⟩
      rw [countP_snoc_hit, hk, h2]
      simp
    · rcases List.mem_append.mp hq with hq | hq
      · exact inv.complete q hq k hqk
      · rw [List.mem_singleton] at hq
        subst hq
        rw [hk] at hqk
        cases hqk
    · exact hfirst_old e he
  | some key =>
    simp only []
    by_cases hmem : key ∈ st.colorMap.map Prod.fst
    · rw [addHit_old st p hmem]
      refine ⟨?_, ?_, fun e he => ?_, fun q hq k hqk => ?_, fun e he => ?_, inv.order⟩
      · simp only [map_fst_incrCount]; exact inv.keys_eq
      · simp only [map_fst_incrCount]; exact inv.nodup
      · simp only [incrCount, List.mem_map] at he
        obtain ⟨e0, he0, rfl⟩ := he
        obtain ⟨h1, h2⟩ := inv.bucket e0 he0
        by_cases hek : e0.1 = key
        · simp only [hek, if_true]
          refine ⟨hek ▸ h1, ?_⟩
          rw [countP_snoc_hit, hk, ← hek, h2]
          simp
        · simp only [hek, if_false]
          refine ⟨h1, ?_⟩
          rw [countP_snoc_hit, hk, h2]
          have : ¬ (some key = some e0.1) := fun h => hek (Option.some.inj h).symm
          simp [this]
      · simp only [map_fst_incrCount]
        rcases List.mem_append.mp hq with hq | hq
        · exact inv.complete q hq k hqk
        · rw [List.mem_singleton] at hq
          subst hq
          rw [hk] at hqk
          cases hqk
          exact hmem
      · exact hfirst_old e he
    · rw [addHit_new st p hmem inv.keys_eq]
      have hnone : ∀ q ∈ pre, hitKey bm q ≠ some key := fun q hq h => hmem (inv.complete q hq key h)
      refine ⟨?_, ?_, fun e he => ?_, fun q hq k hqk => ?_, fun e he => ?_, ?_⟩
      · simp only [List.map_append, List.map_cons, List.map_nil, inv.keys_eq]
      · simp only [List.map_append, List.map_cons, List.map_nil]
        rw [List.nodup_append]
        refine ⟨inv.nodup, List.nodup_singleton _, ?_⟩
        intro a ha hb
        rw [List.mem_singleton] at hb
        subst hb
        exact hmem ha
      · simp only [List.mem_append, List.mem_singleton] at he
        rcases he with he | rfl
        · obtain ⟨h1, h2⟩ := inv.bucket e he
          refine ⟨h1, ?_⟩
          have hek : ¬ (some key = some e.1) := by
            intro h
            have := Option.some.inj h
            exact hmem (this ▸ List.mem_map.mpr ⟨e, he, rfl⟩)
          rw [countP_snoc_hit, hk, h2]
          simp [hek]
        · refine ⟨rfl, ?_⟩
          rw [countP_snoc_hit, hk]
          have : pre.countP (fun p => decide (hitKey bm p = some key)) = 0 := by
            rw [List.countP_eq_zero]
            intro q hq
            simpa using hnone q hq
          simp [this]
      · simp only [List.map_append, List.map_cons, List.map_nil, List.mem_append, List.mem_singleton]
        rcases List.mem_append.mp hq with hq | hq
        · exact Or.inl (inv.complete q hq k hqk)
        · rw [List.mem_singleton] at hq
          subst hq
          rw [hk] at hqk
          cases hqk
          exact Or.inr rfl
      · simp only [List.mem_append, List.mem_singleton] at he
        rcases he with he | rfl
        · exact hfirst_old e he
        · refine ⟨by simp, hk, fun q hq hqk => ?_⟩
          rcases List.mem_append.mp hq with hq | hq
          · exact absurd hqk (hnone q hq)
          · rw [List.mem_singleton] at hq
            subst hq
            exact rowMajorLt_irrefl _
      · simp only [List.map_append, List.map_cons, List.map_nil]
        rw [List.pairwise_append]
        refine ⟨inv.order, List.pairwise_singleton _ _, ?_⟩
        intro a ha b hb
        rw [List.mem_singleton] at hb
        subst hb
        obtain ⟨e, he, rfl⟩ := List.mem_map.mp ha
        exact hp _ (inv.first e he).1

theorem ScanInv.foldl {bm : Bitmap} :
    ∀ (rest pre : List Pos) (st : ScanState), ScanInv bm pre st →
      (pre ++ rest).Pairwise rowMajorLt →
      ScanInv bm (pre ++ rest) (rest.foldl (scanStep bm) st) := by
  intro rest
  induction rest with
  | nil => intro pre st inv _; simpa using inv
  | cons p rest ih =>
    intro pre st inv hpw
    have hp : ∀ q ∈ pre, rowMajorLt q p := by
      intro q hq
      exact (List.pairwise_append.mp hpw).2.2 q hq p (List.mem_cons_self _ _)
    have := ih (pre ++ [p]) (scanStep bm st p) (inv.step p hp) (by simpa using hpw)
    simpa using this

/-! ## The stable sort -/

theorem pairwise_orderedInsert_rank (T : Bucket → Bucket → Prop) (a : Bucket) :
    ∀ L : List Bucket, L.Pairwise (RankOrder T) → (∀ y ∈ L, T a y) →
      (L.orderedInsert (fun a b => b.count ≤ a.count) a).Pairwise (RankOrder T) := by
  intro L
  induction L with
  | nil => intro _ _; simp
  | cons b L ih =>
    intro hpw hT
    rw [List.pairwise_cons] at hpw
    simp only [List.orderedInsert]
    split_ifs with hab
    · rw [List.pairwise_cons]
      refine ⟨fun y hy => ?_, List.pairwise_cons.mpr hpw⟩
      refine ⟨?_, fun _ => hT y hy⟩
      rcases List.mem_cons.mp hy with rfl | hy
      · exact hab
      · exact le_trans (hpw.1 y hy).1 hab
    · rw [List.pairwise_cons]
      refine ⟨fun y hy => ?_, ih hpw.2 (fun y hy => hT y (List.mem_cons_of_mem _ hy))⟩
      rcases (List.mem_orderedInsert _).mp hy with rfl | hy
      · exact ⟨by omega, fun h => absurd h hab⟩
      · exact hpw.1 y hy

theorem pairwise_sortColors (T : Bucket → Bucket → Prop) (colorMap : JsObject Bucket)
    (h : (colorMap.map Prod.snd).Pairwise T) : (sortColors colorMap).Pairwise (RankOrder T) := by
  unfold sortColors
  generalize colorMap.map Prod.snd = L at h
  induction L with
  | nil => simp
  | cons a L ih =>
    rw [List.pairwise_cons] at h
    show (List.orderedInsert _ a (List.insertionSort _ L)).Pairwise (RankOrder T)
    exact pairwise_orderedInsert_rank T a _ (ih h.2)
      (fun y hy => h.1 y ((List.mem_insertionSort _).mp hy))



/-! ## The loop over the sorted buckets and the padding loop -/

theorem getActualColorAt_ok (bm : Bitmap) (hlen : bm.data.length = 4 * bm.width * bm.height)
    {p : Pos} (hx : p.x < bm.width) (hy : p.y < bm.height) :
    getActualColorAt bm p.x p.y =
      .ok { r := bm.channel p 0, g := bm.channel p 1, b := bm.channel p 2 } := by
  have hi := pixel_index_lt bm hlen hx hy
  have e0 := dataAt_ofNat bm.data ((p.y * bm.width + p.x) * 4) (by omega)
  have e1 := dataAt_ofNat bm.data ((p.y * bm.width + p.x) * 4 + 1) (by omega)
  have e2 := dataAt_ofNat bm.data ((p.y * bm.width + p.x) * 4 + 2) (by omega)
  push_cast at e0 e1 e2
  unfold getActualColorAt
  simp only [e0, e1, e2, bind, Except.bind, pure, Except.pure, Bitmap.channel, Nat.add_zero]

theorem swatchesFrom_append (now : Nat → Nat) (bm : Bitmap) :
    ∀ (ps qs : List Pos) (k : Nat),
      swatchesFrom now bm k (ps ++ qs) =
        swatchesFrom now bm k ps ++ swatchesFrom now bm (k + ps.length) qs := by
  intro ps
  induction ps with
  | nil => intro qs k; simp [swatchesFrom]
  | cons p ps ih =>
    intro qs k
    have e : k + (ps.length + 1) = k + 1 + ps.length := by omega
    rw [List.cons_append, swatchesFrom, swatchesFrom, ih, List.length_cons, e, List.cons_append]

theorem length_swatchesFrom (now : Nat → Nat) (bm : Bitmap) :
    ∀ (ps : List Pos) (k : Nat), (swatchesFrom now bm k ps).length = ps.length := by
  intro ps
  induction ps with
  | nil => intro k; rfl
  | cons p ps ih => intro k; simp [swatchesFrom, ih]

theorem rankLoop_spec (now : Nat → Nat) (bm : Bitmap)
    (hlen : bm.data.length = 4 * bm.width * bm.height) (positionMap : JsObject Pos) :
    ∀ (cs : List Bucket) (st : ExtractState),
      st.clockReads = st.count → st.count = st.palette.length →
      (cs.map Bucket.key).Nodup → (∀ c ∈ cs, c.key ∉ st.usedKeys) →
      (∀ c ∈ cs, ∃ p, positionMap.get c.key = some p ∧ p.x < bm.width ∧ p.y < bm.height) →
      ∃ st', rankLoop now bm positionMap cs st = .ok st' ∧
        st'.palette = st.palette ++ swatchesFrom now bm st.count
          ((cs.take (5 - st.count)).filterMap (fun c => positionMap.get c.key)) ∧
        st'.clockReads = st'.count ∧ st'.count = st'.palette.length ∧
        st'.randomReads = st.randomReads := by
  intro cs
  induction cs with
  | nil =>
    intro st h1 h2 _ _ _
    exact ⟨st, rfl, by simp [swatchesFrom], h1, h2, rfl⟩
  | cons c cs ih =>
    intro st h1 h2 hnd hdisj hpos
    rw [List.map_cons, List.nodup_cons] at hnd
    simp only [rankLoop]
    by_cases h5 : st.count ≥ 5
    · rw [if_pos h5]
      refine ⟨st, rfl, ?_, h1, h2, rfl⟩
      have : 5 - st.count = 0 := by omega
      simp [this, swatchesFrom]
    · rw [if_neg h5]
      have hk : Bucket.key c ∉ st.usedKeys := hdisj c (List.mem_cons_self _ _)
      have hk2 : (c.r, c.g, c.b) ∉ st.usedKeys := hk
      rw [if_neg hk2]
      obtain ⟨p, hp, hx, hy⟩ := hpos c (List.mem_cons_self _ _)
      have hp2 : positionMap.get (c.r, c.g, c.b) = some p := hp
      simp only [hp2, getActualColorAt_ok bm hlen hx hy, bind, Except.bind]
      obtain ⟨st', e1, e2, e3, e4, e5⟩ := ih
        { st with
          palette := st.palette ++ [swatchAt bm (now st.count + st.count) p],
          usedKeys := Bucket.key c :: st.usedKeys,
          count := st.count + 1,
          clockReads := st.clockReads + 1 }
        (by simp [h1]) (by simp [h2]) hnd.2
        (by
          intro c2 hc2 hmem
          rcases List.mem_cons.mp hmem with h | h
          · exact hnd.1 (h ▸ List.mem_map.mpr ⟨c2, hc2, rfl⟩)
          · exact hdisj c2 (List.mem_cons_of_mem _ hc2) h)
        (fun c2 hc2 => hpos c2 (List.mem_cons_of_mem _ hc2))
      refine ⟨st', ?_, ?_, e3, e4, e5⟩
      · rw [← e1, h1]
        rfl
      · rw [e2]
        have h6 : 5 - st.count = (5 - (st.count + 1)) + 1 := by omega
        rw [h6, List.take_succ_cons, List.filterMap_cons]
        simp only [hp, swatchesFrom, List.append_assoc, List.singleton_append]

theorem floor_random_lt {u : ℚ} (h : 0 ≤ u ∧ u < 1) {n : Nat} (hn : 1 ≤ n) :
    ∃ k : Nat, ⌊u * (n : ℚ)⌋ = (k : Int) ∧ k < n := by
  have hn0 : (0 : ℚ) < (n : ℚ) := by exact_mod_cast hn
  have h0 : 0 ≤ ⌊u * (n : ℚ)⌋ := Int.floor_nonneg.mpr (mul_nonneg h.1 hn0.le)
  obtain ⟨k, hk⟩ := Int.eq_ofNat_of_zero_le h0
  refine ⟨k, hk, ?_⟩
  have h1 : ⌊u * (n : ℚ)⌋ < (n : Int) := by
    rw [Int.floor_lt]
    push_cast
    nlinarith [h.2]
  omega

theorem padLoop_spec (now : Nat → Nat) (random : Nat → ℚ) (bm : Bitmap) (hv : bm.Valid)
    (hr : RandomSource random) :
    ∀ (fuel : Nat) (st : ExtractState),
      st.clockReads = st.palette.length → 5 ≤ st.palette.length + fuel →
      ∃ st' pads, padLoop now random bm fuel st = .ok st' ∧
        st'.palette = st.palette ++ swatchesFrom now bm st.palette.length pads ∧
        (∀ p ∈ pads, p.x < bm.width ∧ p.y < bm.height) ∧
        pads.length = 5 - st.palette.length := by
  obtain ⟨hw, hh, hlen, _⟩ := hv
  intro fuel
  induction fuel with
  | zero =>
    intro st _ h5
    refine ⟨st, [], ?_, by simp [swatchesFrom], by simp, by simp; omega⟩
    simp only [padLoop]
    rw [if_neg (by omega)]
  | succ fuel ih =>
    intro st h1 h5
    simp only [padLoop]
    by_cases hl : st.palette.length < 5
    · rw [if_pos hl]
      obtain ⟨kx, ekx, hkx⟩ := floor_random_lt (hr st.randomReads) hw
      obtain ⟨ky, eky, hky⟩ := floor_random_lt (hr (st.randomReads + 1)) hh
      have hact := getActualColorAt_ok bm hlen (p := { x := kx, y := ky }) hkx hky
      simp only [ekx, eky, hact, bind, Except.bind]
      obtain ⟨st', pads, e1, e2, e3, e4⟩ := ih
        { st with
          palette := st.palette ++ [swatchAt bm (now st.palette.length + st.palette.length)
            { x := kx, y := ky }],
          clockReads := st.clockReads + 1,
          randomReads := st.randomReads + 2 }
        (by simp [h1]) (by simp; omega)
      refine ⟨st', { x := kx, y := ky } :: pads, ?_, ?_, ?_, ?_⟩
      · rw [← e1, h1]
        rfl
      · rw [e2]
        simp only [List.length_append, List.length_singleton, swatchesFrom, List.append_assoc,
          List.singleton_append]
      · intro p hp
        rcases List.mem_cons.mp hp with rfl | hp
        · exact ⟨hkx, hky⟩
        · exact e3 p hp
      · have e4b : pads.length = 5 - (st.palette.length + 1) := by simpa using e4
        rw [List.length_cons, e4b]
        omega
    · rw [if_neg hl]
      exact ⟨st, [], rfl, by simp [swatchesFrom], by simp, by simp; omega⟩

/-! ## The state after the sampling loops -/

theorem hitKey_eq_some (bm : Bitmap) (p : Pos) (key : Key) :
    hitKey bm p = some key ↔ 128 ≤ bm.channel p 3 ∧ bm.bucketAt p = key := by
  unfold hitKey
  split_ifs with h
  · simp only [false_iff, not_and]
    intro h2; omega
  · simp only [Option.some.injEq]
    exact ⟨fun e => ⟨by omega, e⟩, fun e => e.2⟩

theorem mem_scanCoords_hit (bm : Bitmap) {sampleRate fuel : Nat} (hs : 1 ≤ sampleRate)
    (hw : bm.width ≤ fuel) (hh : bm.height ≤ fuel) (key : Key) (p : Pos) :
    (p ∈ scanCoords bm sampleRate fuel ∧ hitKey bm p = some key) ↔ bm.Hit sampleRate key p := by
  rw [mem_scanCoords bm hs hw hh, hitKey_eq_some]
  unfold Bitmap.Hit
  tauto

theorem countP_scanCoords (bm : Bitmap) {sampleRate fuel : Nat} (hs : 1 ≤ sampleRate)
    (hw : bm.width ≤ fuel) (hh : bm.height ≤ fuel) (key : Key) :
    (scanCoords bm sampleRate fuel).countP (fun p => decide (hitKey bm p = some key)) =
      bucketCount bm sampleRate key := by
  rw [List.countP_eq_length_filter]
  have hnd : ((scanCoords bm sampleRate fuel).filter
      (fun p => decide (hitKey bm p = some key))).Nodup :=
    (nodup_scanCoords bm hs fuel).filter _
  rw [← List.toFinset_card_of_nodup hnd]
  unfold bucketCount
  have hinj : Function.Injective (fun q : Nat × Nat => ({ x := q.1, y := q.2 } : Pos)) := by
    intro a b h
    simp only [Pos.mk.injEq] at h
    exact Prod.ext h.1 h.2
  rw [← Finset.card_image_of_injective _ hinj]
  congr 1
  ext p
  simp only [List.mem_toFinset, List.mem_filter, decide_eq_true_eq, Finset.mem_image,
    Finset.mem_filter, Finset.mem_product, Finset.mem_range]
  rw [mem_scanCoords_hit bm hs hw hh]
  constructor
  · intro h
    exact ⟨(p.x, p.y), ⟨⟨h.1, h.2.1⟩, h⟩, rfl⟩
  · rintro ⟨q, ⟨_, h⟩, rfl⟩
    exact h

theorem filterMap_get_eq_map (positionMap : JsObject Pos) (cs : List Bucket)
    (h : ∀ c ∈ cs, ∃ p, positionMap.get c.key = some p) :
    cs.filterMap (fun c => positionMap.get c.key) =
      cs.map (fun c => (positionMap.get c.key).getD { x := 0, y := 0 }) := by
  induction cs with
  | nil => rfl
  | cons c cs ih =>
    obtain ⟨p, hp⟩ := h c (List.mem_cons_self _ _)
    rw [List.filterMap_cons, List.map_cons, hp, ih (fun c hc => h c (List.mem_cons_of_mem _ hc))]
    rfl

theorem rankPhase_spec (now : Nat → Nat) (bm : Bitmap) (hv : bm.Valid) {sampleRate fuel : Nat}
    (hs : 1 ≤ sampleRate) (hw : bm.width ≤ fuel) (hh : bm.height ≤ fuel) :
    ∃ (st : ExtractState) (all : List (Key × Pos)),
      rankPhase now fuel bm sampleRate = .ok st ∧
      st.palette = swatchesFrom now bm 0 ((all.take 5).map Prod.snd) ∧
      st.clockReads = st.palette.length ∧
      (all.map Prod.fst).Nodup ∧
      (∀ k, k ∈ all.map Prod.fst ↔ ∃ p, bm.Hit sampleRate k p) ∧
      (∀ e ∈ all, IsFirstHit bm sampleRate e.1 e.2) ∧
      all.Pairwise (fun a b =>
        bucketCount bm sampleRate b.1 ≤ bucketCount bm sampleRate a.1 ∧
        (bucketCount bm sampleRate a.1 ≤ bucketCount bm sampleRate b.1 → rowMajorLt a.2 b.2)) := by
  obtain ⟨hw1, hh1, hlen, _⟩ := hv
  -- the sampling loops
  have hscan := scanY_eq bm hlen hs hw fuel 0 { colorMap := [], positionMap := [] } (by omega)
  have inv : ScanInv bm (scanCoords bm sampleRate fuel)
      ((scanCoords bm sampleRate fuel).foldl (scanStep bm) { colorMap := [], positionMap := [] }) := by
    have := @ScanInv.foldl bm (scanCoords bm sampleRate fuel) [] _ (ScanInv.init bm)
      (by simpa using pairwise_scanCoords bm hs fuel)
    simpa using this
  generalize hst : (scanCoords bm sampleRate fuel).foldl (scanStep bm)
    { colorMap := [], positionMap := [] } = sc at inv
  have hscan2 : scanY bm sampleRate fuel fuel 0 { colorMap := [], positionMap := [] } = .ok sc := by
    rw [hscan]; exact congrArg _ hst
  have hpmnd : (sc.positionMap.map Prod.fst).Nodup := inv.keys_eq ▸ inv.nodup
  -- the remembered position of a bucket
  let posOf : Bucket → Pos := fun c => (sc.positionMap.get c.key).getD { x := 0, y := 0 }
  have hkey : ∀ e ∈ sc.colorMap, e.2.key = e.1 := fun e he => (inv.bucket e he).1
  have hmapkey : (sc.colorMap.map Prod.snd).map Bucket.key = sc.colorMap.map Prod.fst := by
    rw [List.map_map]
    exact List.map_congr_left (fun e he => hkey e he)
  have hposmap : (sc.colorMap.map Prod.snd).map posOf = sc.positionMap.map Prod.snd := by
    have e1 : (sc.colorMap.map Prod.snd).map posOf =
        (sc.colorMap.map Prod.fst).map (fun k => (sc.positionMap.get k).getD { x := 0, y := 0 }) := by
      rw [List.map_map, List.map_map]
      apply List.map_congr_left
      intro e he
      simp only [Function.comp, posOf, hkey e he]
    rw [e1, inv.keys_eq, List.map_map]
    apply List.map_congr_left
    intro e he
    simp only [Function.comp, JsObject.get_of_mem _ hpmnd (show (e.1, e.2) ∈ sc.positionMap from he),
      Option.getD_some]
  -- the sorted buckets
  have hperm : (sortColors sc.colorMap).Perm (sc.colorMap.map Prod.snd) :=
    List.perm_insertionSort _ _
  have hmemcs : ∀ c ∈ sortColors sc.colorMap, ∃ e ∈ sc.colorMap, e.2 = c := by
    intro c hc
    obtain ⟨e, he, rfl⟩ := List.mem_map.mp (hperm.mem_iff.mp hc)
    exact ⟨e, he, rfl⟩
  have hcsnd : ((sortColors sc.colorMap).map Bucket.key).Nodup := by
    have := (hperm.map Bucket.key).nodup_iff.mpr (hmapkey ▸ inv.nodup)
    exact this
  have hpos : ∀ c ∈ sortColors sc.colorMap,
      (c.key, posOf c) ∈ sc.positionMap ∧ sc.positionMap.get c.key = some (posOf c) := by
    intro c hc
    obtain ⟨e, he, rfl⟩ := hmemcs c hc
    have h1 : e.2.key ∈ sc.positionMap.map Prod.fst := by
      rw [← inv.keys_eq, hkey e he]
      exact List.mem_map.mpr ⟨e, he, rfl⟩
    obtain ⟨e2, he2, hk2⟩ := List.mem_map.mp h1
    have h2 : sc.positionMap.get e.2.key = some e2.2 :=
      JsObject.get_of_mem _ hpmnd (show (e.2.key, e2.2) ∈ sc.positionMap from hk2 ▸ he2)
    have h3 : posOf e.2 = e2.2 := by simp only [posOf, h2, Option.getD_some]
    rw [h3]
    exact ⟨hk2 ▸ he2, h2⟩
  have hhit : ∀ e ∈ sc.positionMap, IsFirstHit bm sampleRate e.1 e.2 := by
    intro e he
    obtain ⟨h1, h2, h3⟩ := inv.first e he
    refine ⟨(mem_scanCoords_hit bm hs hw hh e.1 e.2).mp ⟨h1, h2⟩, fun q hq => ?_⟩
    obtain ⟨hq1, hq2⟩ := (mem_scanCoords_hit bm hs hw hh e.1 q).mpr hq
    exact h3 q hq1 hq2
  have hcount : ∀ c ∈ sortColors sc.colorMap, c.count = bucketCount bm sampleRate c.key := by
    intro c hc
    obtain ⟨e, he, rfl⟩ := hmemcs c hc
    rw [(inv.bucket e he).2, countP_scanCoords bm hs hw hh, hkey e he]
  -- the loop over the sorted buckets
  obtain ⟨st, e1, e2, e3, e4, _⟩ := rankLoop_spec now bm hlen sc.positionMap
    (sortColors sc.colorMap)
    { palette := [], usedKeys := [], count := 0, clockReads := 0, randomReads := 0 }
    rfl rfl hcsnd (fun c _ h => by cases h)
    (fun c hc => by
      obtain ⟨h1, h2⟩ := hpos c hc
      obtain ⟨h3, _⟩ := hhit _ h1
      exact ⟨posOf c, h2, h3.1, h3.2.1⟩)
  refine ⟨st, (sortColors sc.colorMap).map (fun c => (c.key, posOf c)), ?_, ?_, ?_, ?_, ?_, ?_, ?_⟩
  · unfold rankPhase
    rw [if_neg (by omega)]
    simp only [hscan2, bind, Except.bind, pure, Except.pure]
    exact e1
  · rw [e2]
    simp only [List.nil_append, Nat.sub_zero]
    rw [filterMap_get_eq_map _ _ (fun c hc =>
      ⟨posOf c, (hpos c (List.mem_of_mem_take hc)).2⟩), ← List.map_take, List.map_map]
    rfl
  · rw [e3, e4]
  · rw [List.map_map]
    exact hcsnd
  · intro k
    rw [List.map_map]
    show k ∈ (sortColors sc.colorMap).map Bucket.key ↔ _
    rw [(hperm.map Bucket.key).mem_iff, hmapkey]
    constructor
    · intro hk
      rw [inv.keys_eq] at hk
      obtain ⟨e, he, rfl⟩ := List.mem_map.mp hk
      exact ⟨e.2, (hhit e he).1⟩
    · rintro ⟨p, hp⟩
      obtain ⟨h1, h2⟩ := (mem_scanCoords_hit bm hs hw hh k p).mpr hp
      exact inv.complete p h1 k h2
  · intro e he
    obtain ⟨c, hc, rfl⟩ := List.mem_map.mp he
    exact hhit _ (hpos c hc).1
  · rw [List.pairwise_map]
    have hT : (sc.colorMap.map Prod.snd).Pairwise (fun a b => rowMajorLt (posOf a) (posOf b)) := by
      have := inv.order
      rw [← hposmap, List.pairwise_map] at this
      exact this
    have hsorted := pairwise_sortColors _ sc.colorMap hT
    refine hsorted.imp_of_mem ?_
    intro a b ha hb hab
    rw [← hcount a ha, ← hcount b hb]
    exact hab

/-! ## The whole extraction -/

theorem extract_spec (now : Nat → Nat) (random : Nat → ℚ) (bm : Bitmap) (hv : bm.Valid)
    (hr : RandomSource random) {sampleRate fuel : Nat} (hs : 1 ≤ sampleRate)
    (hw : bm.width ≤ fuel) (hh : bm.height ≤ fuel) (h5 : 5 ≤ fuel) :
    ∃ (st : ExtractState) (all : List (Key × Pos)) (pads : List Pos),
      rankPhase now fuel bm sampleRate = .ok st ∧
      extractProminentColors now random fuel bm sampleRate =
        .ok (st.palette ++ swatchesFrom now bm st.palette.length pads) ∧
      st.palette = swatchesFrom now bm 0 ((all.take 5).map Prod.snd) ∧
      st.palette.length + pads.length = 5 ∧
      (∀ p ∈ pads, p.x < bm.width ∧ p.y < bm.height) ∧
      (all.map Prod.fst).Nodup ∧
      (∀ k, k ∈ all.map Prod.fst ↔ ∃ p, bm.Hit sampleRate k p) ∧
      (∀ e ∈ all, IsFirstHit bm sampleRate e.1 e.2) ∧
      all.Pairwise (fun a b =>
        bucketCount bm sampleRate b.1 ≤ bucketCount bm sampleRate a.1 ∧
        (bucketCount bm sampleRate a.1 ≤ bucketCount bm sampleRate b.1 → rowMajorLt a.2 b.2)) := by
  obtain ⟨st, all, e1, e2, e3, e4, e5, e6, e7⟩ := rankPhase_spec now bm hv hs hw hh
  have hle : st.palette.length ≤ 5 := by
    rw [e2, length_swatchesFrom, List.length_map, List.length_take]
    omega
  obtain ⟨st2, pads, p1, p2, p3, p4⟩ := padLoop_spec now random bm hv hr fuel st e3 (by omega)
  refine ⟨st, all, pads, e1, ?_, e2, by omega, p3, e4, e5, e6, e7⟩
  unfold extractProminentColors
  simp only [e1, p1, bind, Except.bind, pure, Except.pure, p2]

theorem extract_eq_swatchesFrom (now : Nat → Nat) (random : Nat → ℚ) (bm : Bitmap) (hv : bm.Valid)
    (hr : RandomSource random) {sampleRate fuel : Nat} (hs : 1 ≤ sampleRate)
    (hw : bm.width ≤ fuel) (hh : bm.height ≤ fuel) (h5 : 5 ≤ fuel) :
    ∃ ps : List Pos,
      extractProminentColors now random fuel bm sampleRate = .ok (swatchesFrom now bm 0 ps) ∧
      ps.length = 5 ∧ ∀ p ∈ ps, p.x < bm.width ∧ p.y < bm.height := by
  obtain ⟨st, all, pads, _, e2, e3, e4, e5, _, _, e8, _⟩ :=
    extract_spec now random bm hv hr hs hw hh h5
  refine ⟨(all.take 5).map Prod.snd ++ pads, ?_, ?_, ?_⟩
  · rw [e2, swatchesFrom_append, ← e3, Nat.zero_add]
    congr 3
    rw [e3, length_swatchesFrom]
  · rw [e3, length_swatchesFrom] at e4
    rw [List.length_append]
    exact e4
  · intro p hp
    rcases List.mem_append.mp hp with hp | hp
    · obtain ⟨e, he, rfl⟩ := List.mem_map.mp hp
      have := (e8 e (List.mem_of_mem_take he)).1
      exact ⟨this.1, this.2.1⟩
    · exact e5 p hp

theorem mem_swatchesFrom (now : Nat → Nat) (bm : Bitmap) :
    ∀ (ps : List Pos) (k : Nat) (sw : Swatch), sw ∈ swatchesFrom now bm k ps →
      ∃ i p, p ∈ ps ∧ sw = swatchAt bm i p := by
  intro ps
  induction ps with
  | nil => intro k sw h; cases h
  | cons p ps ih =>
    intro k sw h
    rw [swatchesFrom, List.mem_cons] at h
    rcases h with rfl | h
    · exact ⟨_, p, List.mem_cons_self _ _, rfl⟩
    · obtain ⟨i, q, hq, e⟩ := ih _ _ h
      exact ⟨i, q, List.mem_cons_of_mem _ hq, e⟩

theorem ids_swatchesFrom (now : Nat → Nat) (bm : Bitmap) :
    ∀ (ps : List Pos) (k : Nat),
      (swatchesFrom now bm k ps).map Swatch.id =
        (List.range' k ps.length).map (fun i => now i + i) := by
  intro ps
  induction ps with
  | nil => intro k; rfl
  | cons p ps ih =>
    intro k
    rw [swatchesFrom, List.map_cons, ih, List.length_cons, List.range'_succ, List.map_cons]
    rfl

/-- C1. For every valid bitmap, every stride of at least 1 and every random
source, with enough fuel for the loops, `extractProminentColors` returns a
palette, and the palette has exactly 5 swatches. -/
theorem extract_length (now : Nat → Nat) (random : Nat → ℚ) (fuel : Nat) (bm : Bitmap)
    (sampleRate : Nat) (hv : bm.Valid) (hs : 1 ≤ sampleRate) (hr : RandomSource random)
    (hfuel : bm.width ≤ fuel ∧ bm.height ≤ fuel ∧ 5 ≤ fuel) :
    ∃ palette, extractProminentColors now random fuel bm sampleRate = .ok palette ∧
      palette.length = 5 := by
  obtain ⟨ps, e1, e2, _⟩ :=
    extract_eq_swatchesFrom now random bm hv hr hs hfuel.1 hfuel.2.1 hfuel.2.2
  exact ⟨_, e1, by rw [length_swatchesFrom, e2]⟩

/-- C4. Every swatch returned by `extractProminentColors` on a valid bitmap has
its coordinates inside the bitmap, and the four bytes of its pixel lie inside
the buffer; the run itself makes no read outside the buffer, since it returns
a palette. -/
theorem extract_coords_in_bounds (now : Nat → Nat) (random : Nat → ℚ) (fuel : Nat) (bm : Bitmap)
    (sampleRate : Nat) (hv : bm.Valid) (hs : 1 ≤ sampleRate) (hr : RandomSource random)
    (hfuel : bm.width ≤ fuel ∧ bm.height ≤ fuel ∧ 5 ≤ fuel) :
    ∃ palette, extractProminentColors now random fuel bm sampleRate = .ok palette ∧
      ∀ sw ∈ palette,
        (0 ≤ sw.x ∧ sw.x ≤ (bm.width : Int) - 1) ∧ (0 ≤ sw.y ∧ sw.y ≤ (bm.height : Int) - 1) ∧
        0 ≤ (sw.y * bm.width + sw.x) * 4 ∧
        (sw.y * bm.width + sw.x) * 4 + 3 < ((4 * bm.width * bm.height : Nat) : Int) := by
  obtain ⟨ps, e1, _, e3⟩ :=
    extract_eq_swatchesFrom now random bm hv hr hs hfuel.1 hfuel.2.1 hfuel.2.2
  refine ⟨_, e1, fun sw hsw => ?_⟩
  obtain ⟨i, p, hp, rfl⟩ := mem_swatchesFrom now bm ps 0 sw hsw
  obtain ⟨hx, hy⟩ := e3 p hp
  have hi := pixel_index_lt bm hv.2.2.1 hx hy
  rw [hv.2.2.1] at hi
  simp only [swatchAt]
  refine ⟨⟨by omega, by omega⟩, ⟨by omega, by omega⟩, ?_, ?_⟩
  · positivity
  · exact_mod_cast hi

/-- C9. When the clock never goes back between two reads, the identifiers of
the 5 swatches returned by `extractProminentColors` are pairwise distinct. -/
theorem extract_ids_distinct (now : Nat → Nat) (random : Nat → ℚ) (fuel : Nat) (bm : Bitmap)
    (sampleRate : Nat) (hv : bm.Valid) (hs : 1 ≤ sampleRate) (hr : RandomSource random)
    (hfuel : bm.width ≤ fuel ∧ bm.height ≤ fuel ∧ 5 ≤ fuel) (hnow : Monotone now) :
    ∃ palette, extractProminentColors now random fuel bm sampleRate = .ok palette ∧
      palette.length = 5 ∧ (palette.map Swatch.id).Nodup := by
  obtain ⟨ps, e1, e2, _⟩ :=
    extract_eq_swatchesFrom now random bm hv hr hs hfuel.1 hfuel.2.1 hfuel.2.2
  refine ⟨_, e1, by rw [length_swatchesFrom, e2], ?_⟩
  rw [ids_swatchesFrom]
  refine (List.nodup_range' _ _).map ?_
  intro i j hij
  simp only at hij
  rcases Nat.lt_trichotomy i j with h | h | h
  · have := hnow h.le; omega
  · exact h
  · have := hnow h.le; omega

theorem quantize_cast (n : Nat) : (((n : Int) / 64 * 64).toNat) = n / 64 * 64 := by
  omega

theorem bucket_swatchAt (bm : Bitmap) (id : Nat) (p : Pos) :
    (swatchAt bm id p).bucket = bm.bucketAt p := by
  simp only [Swatch.bucket, swatchAt, Bitmap.bucketAt, quantize_cast]

theorem ranked_spec (now : Nat → Nat) (random : Nat → ℚ) (bm : Bitmap) (hv : bm.Valid)
    (hr : RandomSource random) {sampleRate fuel : Nat} (hs : 1 ≤ sampleRate)
    (hw : bm.width ≤ fuel) (hh : bm.height ≤ fuel) (h5 : 5 ≤ fuel) :
    ∃ (st : ExtractState) (padding : List Swatch) (ranked : List Pos),
      rankPhase now fuel bm sampleRate = .ok st ∧
      extractProminentColors now random fuel bm sampleRate = .ok (st.palette ++ padding) ∧
      st.palette = swatchesFrom now bm 0 ranked ∧
      (∀ p ∈ ranked, IsFirstHit bm sampleRate (bm.bucketAt p) p) ∧
      ranked.Pairwise (fun p q =>
        bucketCount bm sampleRate (bm.bucketAt q) ≤ bucketCount bm sampleRate (bm.bucketAt p) ∧
        (bucketCount bm sampleRate (bm.bucketAt p) ≤ bucketCount bm sampleRate (bm.bucketAt q) →
          rowMajorLt p q)) := by
  obtain ⟨st, all, pads, e1, e2, e3, _, _, _, _, e8, e9⟩ :=
    extract_spec now random bm hv hr hs hw hh h5
  have hkey : ∀ e ∈ all, bm.bucketAt e.2 = e.1 := fun e he => (e8 e he).1.2.2.2.2.2
  refine ⟨st, _, (all.take 5).map Prod.snd, e1, e2, e3, ?_, ?_⟩
  · intro p hp
    obtain ⟨e, he, rfl⟩ := List.mem_map.mp hp
    have he2 := List.mem_of_mem_take he
    rw [hkey e he2]
    exact e8 e he2
  · rw [List.pairwise_map]
    refine ((e9.sublist (List.take_sublist 5 all)).imp_of_mem ?_)
    intro a b ha hb hab
    rw [hkey a (List.mem_of_mem_take ha), hkey b (List.mem_of_mem_take hb)]
    exact hab

theorem pairwise_swatchesFrom (now : Nat → Nat) (bm : Bitmap) (R : Swatch → Swatch → Prop)
    (S : Pos → Pos → Prop) (hRS : ∀ p q i j, S p q → R (swatchAt bm i p) (swatchAt bm j q)) :
    ∀ (ps : List Pos) (k : Nat), ps.Pairwise S → (swatchesFrom now bm k ps).Pairwise R := by
  intro ps
  induction ps with
  | nil => intro k _; exact List.Pairwise.nil
  | cons p ps ih =>
    intro k h
    rw [List.pairwise_cons] at h
    rw [swatchesFrom, List.pairwise_cons]
    refine ⟨fun sw hsw => ?_, ih _ h.2⟩
    obtain ⟨i, q, hq, rfl⟩ := mem_swatchesFrom now bm ps _ sw hsw
    exact hRS _ _ _ _ (h.1 q hq)

/-- C7. The ranked swatches (the palette when the loop over the sorted buckets
ends, which is the beginning of the returned palette) are in order of
non-increasing bucket count, the count of a bucket being the number of sampled
pixels with alpha at least 128 that quantize to it; of two ranked swatches
whose buckets have the same count, the first one is the one whose bucket was
first met earlier in the row-major scan. -/
theorem ranked_order (now : Nat → Nat) (random : Nat → ℚ) (fuel : Nat) (bm : Bitmap)
    (sampleRate : Nat) (hv : bm.Valid) (hs : 1 ≤ sampleRate) (hr : RandomSource random)
    (hfuel : bm.width ≤ fuel ∧ bm.height ≤ fuel ∧ 5 ≤ fuel) :
    ∃ (st : ExtractState) (padding : List Swatch),
      rankPhase now fuel bm sampleRate = .ok st ∧
      extractProminentColors now random fuel bm sampleRate = .ok (st.palette ++ padding) ∧
      st.palette.Pairwise (fun a b =>
        bucketCount bm sampleRate b.bucket ≤ bucketCount bm sampleRate a.bucket ∧
        (bucketCount bm sampleRate a.bucket = bucketCount bm sampleRate b.bucket →
          ∃ pa pb, IsFirstHit bm sampleRate a.bucket pa ∧ IsFirstHit bm sampleRate b.bucket pb ∧
            rowMajorLt pa pb)) := by
  obtain ⟨st, padding, ranked, e1, e2, e3, e4, e5⟩ :=
    ranked_spec now random bm hv hr hs hfuel.1 hfuel.2.1 hfuel.2.2
  refine ⟨st, padding, e1, e2, ?_⟩
  rw [e3]
  have h6 : ranked.Pairwise (fun p q =>
      IsFirstHit bm sampleRate (bm.bucketAt p) p ∧ IsFirstHit bm sampleRate (bm.bucketAt q) q ∧
      bucketCount bm sampleRate (bm.bucketAt q) ≤ bucketCount bm sampleRate (bm.bucketAt p) ∧
      (bucketCount bm sampleRate (bm.bucketAt p) ≤ bucketCount bm sampleRate (bm.bucketAt q) →
        rowMajorLt p q)) :=
    e5.imp_of_mem (fun hp hq h => ⟨e4 _ hp, e4 _ hq, h⟩)
  refine pairwise_swatchesFrom now bm _ _ ?_ ranked 0 h6
  intro p q i j h
  simp only [bucket_swatchAt]
  exact ⟨h.2.2.1, fun heq => ⟨p, q, h.1, h.2.1, h.2.2.2 heq.le⟩⟩

/-- C8. Every ranked swatch sits on the first pixel of the row-major scan that
is sampled, has alpha at least 128 and falls in the bucket of the swatch, and
its channels are the bytes of the bitmap at that pixel. -/
theorem ranked_first_coordinate (now : Nat → Nat) (random : Nat → ℚ) (fuel : Nat) (bm : Bitmap)
    (sampleRate : Nat) (hv : bm.Valid) (hs : 1 ≤ sampleRate) (hr : RandomSource random)
    (hfuel : bm.width ≤ fuel ∧ bm.height ≤ fuel ∧ 5 ≤ fuel) :
    ∃ (st : ExtractState) (padding : List Swatch),
      rankPhase now fuel bm sampleRate = .ok st ∧
      extractProminentColors now random fuel bm sampleRate = .ok (st.palette ++ padding) ∧
      ∀ sw ∈ st.palette, ∃ p : Pos,
        sw.x = p.x ∧ sw.y = p.y ∧ IsFirstHit bm sampleRate sw.bucket p ∧
        sw.r = bm.channel p 0 ∧ sw.g = bm.channel p 1 ∧ sw.b = bm.channel p 2 := by
  obtain ⟨st, padding, ranked, e1, e2, e3, e4, _⟩ :=
    ranked_spec now random bm hv hr hs hfuel.1 hfuel.2.1 hfuel.2.2
  refine ⟨st, padding, e1, e2, fun sw hsw => ?_⟩
  rw [e3] at hsw
  obtain ⟨i, p, hp, rfl⟩ := mem_swatchesFrom now bm ranked 0 sw hsw
  refine ⟨p, rfl, rfl, ?_, rfl, rfl, rfl⟩
  rw [bucket_swatchAt]
  exact e4 p hp

/-! ## The handlers of the component -/

theorem getColorAtPosition_consistent (image : Option Bitmap) (x y : Int) :
    (getColorAtPosition image x y).hex =
        rgbToHex (getColorAtPosition image x y).r (getColorAtPosition image x y).g
          (getColorAtPosition image x y).b ∧
      ({ h := (getColorAtPosition image x y).h, s := (getColorAtPosition image x y).s,
         l := (getColorAtPosition image x y).l } : Hsl) =
        rgbToHsl (getColorAtPosition image x y).r (getColorAtPosition image x y).g
          (getColorAtPosition image x y).b := by
  cases image with
  | none =>
    simp only [getColorAtPosition]
    refine ⟨by decide, ?_⟩
    norm_num [rgbToHsl, mathRound]
  | some image => exact ⟨rfl, rfl⟩

theorem swatchAt_consistent (bm : Bitmap) (id : Nat) (p : Pos) : (swatchAt bm id p).Consistent :=
  ⟨rfl, rfl⟩

theorem handleAddColor_consistent (t : Nat) (r1 r2 : ℚ) (app : App)
    (h : ∀ sw ∈ app.palette, sw.Consistent) :
    ∀ sw ∈ (handleAddColor t r1 r2 app).palette, sw.Consistent := by
  unfold handleAddColor
  split_ifs with hi
  · exact h
  · intro sw hsw
    simp only [List.mem_append, List.mem_singleton] at hsw
    rcases hsw with hsw | rfl
    · exact h sw hsw
    · exact getColorAtPosition_consistent _ _ _

theorem handleMove_consistent (cx cy : ℚ) (app : App)
    (h : ∀ sw ∈ app.palette, sw.Consistent) :
    ∀ sw ∈ (handleMove cx cy app).palette, sw.Consistent := by
  unfold handleMove
  split
  · intro sw hsw
    simp only [List.mem_map] at hsw
    obtain ⟨p, hp, rfl⟩ := hsw
    split_ifs
    · exact getColorAtPosition_consistent _ _ _
    · exact h p hp
  · exact h

/-- C2. Every swatch of a palette returned by `extractProminentColors`, ranked
or padding, is consistent: its `color` is `rgbToHex` of its channels and its
`h, s, l` are `rgbToHsl` of them. `handleAddColor`, `handleMove` and
`handleRemoveColor` turn a palette of consistent swatches into one, the
appended and the repositioned swatch included, and the record that
`getColorAtPosition` returns without an image is consistent as well. -/
theorem swatches_consistent (now : Nat → Nat) (random : Nat → ℚ) (fuel : Nat) (bm : Bitmap)
    (sampleRate : Nat) (hv : bm.Valid) (hs : 1 ≤ sampleRate) (hr : RandomSource random)
    (hfuel : bm.width ≤ fuel ∧ bm.height ≤ fuel ∧ 5 ≤ fuel) :
    (∃ palette, extractProminentColors now random fuel bm sampleRate = .ok palette ∧
      palette.length = 5 ∧ ∀ sw ∈ palette, sw.Consistent) ∧
    (∀ (t : Nat) (r1 r2 : ℚ) (app : App), (∀ sw ∈ app.palette, sw.Consistent) →
      ∀ sw ∈ (handleAddColor t r1 r2 app).palette, sw.Consistent) ∧
    (∀ (cx cy : ℚ) (app : App), (∀ sw ∈ app.palette, sw.Consistent) →
      ∀ sw ∈ (handleMove cx cy app).palette, sw.Consistent) ∧
    (∀ (id : Nat) (app : App), (∀ sw ∈ app.palette, sw.Consistent) →
      ∀ sw ∈ (handleRemoveColor id app).palette, sw.Consistent) ∧
    (∀ x y : Int,
      (getColorAtPosition none x y).hex =
        rgbToHex (getColorAtPosition none x y).r (getColorAtPosition none x y).g
          (getColorAtPosition none x y).b ∧
      ({ h := (getColorAtPosition none x y).h, s := (getColorAtPosition none x y).s,
         l := (getColorAtPosition none x y).l } : Hsl) =
        rgbToHsl (getColorAtPosition none x y).r (getColorAtPosition none x y).g
          (getColorAtPosition none x y).b) := by
  refine ⟨?_, handleAddColor_consistent, handleMove_consistent, ?_,
    fun x y => getColorAtPosition_consistent none x y⟩
  · obtain ⟨ps, e1, e2, _⟩ :=
      extract_eq_swatchesFrom now random bm hv hr hs hfuel.1 hfuel.2.1 hfuel.2.2
    refine ⟨_, e1, by rw [length_swatchesFrom, e2], fun sw hsw => ?_⟩
    obtain ⟨i, p, _, rfl⟩ := mem_swatchesFrom now bm ps 0 sw hsw
    exact swatchAt_consistent bm i p
  · intro id app h sw hsw
    simp only [handleRemoveColor, List.mem_filter] at hsw
    exact h sw hsw.1

/-! ## Rounding to doubles -/

theorem roundHalfEven_of_near (q : ℚ) (n : Int) (h1 : (n : ℚ) - 1 / 2 < q)
    (h2 : q < (n : ℚ) + 1 / 2) : roundHalfEven q = n := by
  unfold roundHalfEven
  have hf1 : (⌊q⌋ : ℚ) ≤ q := Int.floor_le q
  have hf2 : q < (⌊q⌋ : ℚ) + 1 := Int.lt_floor_add_one q
  by_cases hq : (n : ℚ) ≤ q
  · have hfl : ⌊q⌋ = n := by
      rw [Int.floor_eq_iff]
      exact ⟨hq, by linarith⟩
    rw [hfl, if_pos (by linarith)]
  · push_neg at hq
    have hfl : ⌊q⌋ = n - 1 := by
      rw [Int.floor_eq_iff]
      push_cast
      exact ⟨by linarith, by linarith⟩
    rw [hfl]
    push_cast
    rw [if_neg (by linarith), if_pos (by linarith)]
    ring

theorem abs_roundHalfEven_sub_le (q : ℚ) : |(roundHalfEven q : ℚ) - q| ≤ 1 / 2 := by
  unfold roundHalfEven
  have hf1 : (⌊q⌋ : ℚ) ≤ q := Int.floor_le q
  have hf2 : q < (⌊q⌋ : ℚ) + 1 := Int.lt_floor_add_one q
  rw [abs_le]
  split_ifs with h1 h2 h3
  · constructor <;> linarith
  · push_cast; constructor <;> linarith
  · push_neg at h1 h2; constructor <;> linarith
  · push_neg at h1 h2; push_cast; constructor <;> linarith

theorem roundHalfEven_nonneg {q : ℚ} (hq : 0 ≤ q) : 0 ≤ roundHalfEven q := by
  unfold roundHalfEven
  have : 0 ≤ ⌊q⌋ := Int.floor_nonneg.mpr hq
  split_ifs <;> omega

theorem log_eq_of_bounds {x : ℚ} (hx : 0 < x) (e : Int) (h1 : (2 : ℚ) ^ e ≤ x)
    (h2 : x < (2 : ℚ) ^ (e + 1)) : Int.log 2 x = e := by
  have a1 : e ≤ Int.log 2 x := by
    rw [← Int.zpow_le_iff_le_log (by norm_num) hx]
    simpa using h1
  have a2 : Int.log 2 x < e + 1 := by
    rw [← Int.lt_zpow_iff_log_lt (by norm_num) hx]
    simpa using h2
  omega

theorem toDouble_of_bounds {x : ℚ} (hx : 0 < x) (e : Int) (h1 : (2 : ℚ) ^ e ≤ x)
    (h2 : x < (2 : ℚ) ^ (e + 1)) :
    toDouble x = (roundHalfEven (x / 2 ^ (e - 52)) : ℚ) * 2 ^ (e - 52) := by
  unfold toDouble
  rw [if_neg hx.ne', abs_of_pos hx, log_eq_of_bounds hx e h1 h2]

theorem toDouble_eval {x : ℚ} (hx : 0 < x) (e n : Int) (h1 : (2 : ℚ) ^ e ≤ x)
    (h2 : x < (2 : ℚ) ^ (e + 1)) (h3 : (n : ℚ) - 1 / 2 < x / 2 ^ (e - 52))
    (h4 : x / 2 ^ (e - 52) < (n : ℚ) + 1 / 2) : toDouble x = (n : ℚ) * 2 ^ (e - 52) := by
  rw [toDouble_of_bounds hx e h1 h2, roundHalfEven_of_near _ n h3 h4]

theorem toDouble_zero : toDouble 0 = 0 := by
  unfold toDouble
  rw [if_pos rfl]

theorem toDouble_nonneg {x : ℚ} (hx : 0 ≤ x) : 0 ≤ toDouble x := by
  unfold toDouble
  split_ifs with h0
  · exact le_refl _
  · apply mul_nonneg
    · exact_mod_cast roundHalfEven_nonneg (div_nonneg hx (zpow_pos (by norm_num) _).le)
    · exact (zpow_pos (by norm_num) _).le

theorem abs_toDouble_sub_le {x : ℚ} (hx : 0 ≤ x) : |toDouble x - x| ≤ x / 2 ^ 53 := by
  rcases hx.eq_or_lt with h0 | hpos
  · subst h0
    simp [toDouble_zero]
  · have hb1 : (2 : ℚ) ^ Int.log 2 x ≤ x := by
      simpa using Int.zpow_log_le_self (b := 2) (by norm_num) hpos
    have hb2 : x < (2 : ℚ) ^ (Int.log 2 x + 1) := by
      simpa using Int.lt_zpow_succ_log_self (b := 2) (by norm_num) x
    rw [toDouble_of_bounds hpos _ hb1 hb2]
    generalize Int.log 2 x = e at hb1 hb2
    have hp : (0 : ℚ) < 2 ^ (e - 52) := zpow_pos (by norm_num) _
    have hr := abs_roundHalfEven_sub_le (x / 2 ^ (e - 52))
    have e1 : (roundHalfEven (x / 2 ^ (e - 52)) : ℚ) * 2 ^ (e - 52) - x =
        ((roundHalfEven (x / 2 ^ (e - 52)) : ℚ) - x / 2 ^ (e - 52)) * 2 ^ (e - 52) := by
      field_simp
    rw [e1, abs_mul, abs_of_pos hp]
    have e2 : (2 : ℚ) ^ (e - 52) = 2 ^ e / 2 ^ 52 := by
      rw [zpow_sub₀ (by norm_num)]
      norm_num
    calc |(roundHalfEven (x / 2 ^ (e - 52)) : ℚ) - x / 2 ^ (e - 52)| * 2 ^ (e - 52)
        ≤ 1 / 2 * 2 ^ (e - 52) := mul_le_mul_of_nonneg_right hr hp.le
      _ = 2 ^ e / 2 ^ 53 := by rw [e2]; ring
      _ ≤ x / 2 ^ 53 := div_le_div_of_nonneg_right hb1 (by positivity)

theorem toDouble_natCast (k : Nat) (hk : k < 2 ^ 53) : toDouble (k : ℚ) = k := by
  rcases Nat.eq_zero_or_pos k with rfl | hpos
  · simpa using toDouble_zero
  · have hx : (0 : ℚ) < (k : ℚ) := by exact_mod_cast hpos
    have hb1 : (2 : ℚ) ^ Int.log 2 (k : ℚ) ≤ (k : ℚ) := by
      simpa using Int.zpow_log_le_self (b := 2) (by norm_num) hx
    have hb2 : (k : ℚ) < (2 : ℚ) ^ (Int.log 2 (k : ℚ) + 1) := by
      simpa using Int.lt_zpow_succ_log_self (b := 2) (by norm_num) (k : ℚ)
    have hlog : Int.log 2 (k : ℚ) = (Nat.log 2 k : Int) := Int.log_natCast 2 k
    have hle : Nat.log 2 k < 53 := Nat.log_lt_of_lt_pow hpos.ne' hk
    rw [toDouble_of_bounds hx _ hb1 hb2, hlog]
    obtain ⟨m, hm⟩ : ∃ m : Nat, Nat.log 2 k + m = 52 := ⟨52 - Nat.log 2 k, by omega⟩
    have e1 : (2 : ℚ) ^ ((Nat.log 2 k : Int) - 52) = ((2 : ℚ) ^ m)⁻¹ := by
      have : ((Nat.log 2 k : Int) - 52) = -(m : Int) := by omega
      rw [this, zpow_neg, zpow_natCast]
    have hm0 : ((2 : ℚ) ^ m) ≠ 0 := pow_ne_zero _ (by norm_num)
    rw [e1]
    have e2 : (k : ℚ) / ((2 : ℚ) ^ m)⁻¹ = (((k * 2 ^ m : Nat) : Int) : ℚ) := by
      push_cast
      field_simp
    rw [e2, roundHalfEven_of_near _ ((k * 2 ^ m : Nat) : Int) (by linarith) (by linarith)]
    push_cast
    field_simp

/-! ## The mapping to native coordinates -/

theorem toNative_eq (renderedWidth renderedHeight : ℚ) (bitmapWidth bitmapHeight : Nat)
    (pointerX pointerY : ℚ) :
    toNative renderedWidth renderedHeight bitmapWidth bitmapHeight pointerX pointerY =
      (⌊toDouble (Max.max 0 (Min.min pointerX renderedWidth) *
          toDouble ((bitmapWidth : ℚ) / renderedWidth))⌋,
       ⌊toDouble (Max.max 0 (Min.min pointerY renderedHeight) *
          toDouble ((bitmapHeight : ℚ) / renderedHeight))⌋) := rfl

theorem floor_scaled_eval {rendered pointer : ℚ} {bitmap : Nat} (rel s p : ℚ) (k : Int)
    (h1 : Max.max 0 (Min.min pointer rendered) = rel)
    (h2 : toDouble ((bitmap : ℚ) / rendered) = s) (h3 : toDouble (rel * s) = p)
    (h4 : ⌊p⌋ = k) :
    ⌊toDouble (Max.max 0 (Min.min pointer rendered) * toDouble ((bitmap : ℚ) / rendered))⌋ = k := by
  rw [h1, h2, h3, h4]

theorem floor_scaled_exact {rendered pointer : ℚ} {bitmap : Nat} (rel s p : Nat)
    (h1 : Max.max 0 (Min.min pointer rendered) = (rel : ℚ))
    (h2 : (bitmap : ℚ) / rendered = (s : ℚ)) (h3 : rel * s = p) (hs : s < 2 ^ 53)
    (hp : p < 2 ^ 53) :
    ⌊toDouble (Max.max 0 (Min.min pointer rendered) * toDouble ((bitmap : ℚ) / rendered))⌋ =
      (p : Int) := by
  refine floor_scaled_eval (rel : ℚ) (s : ℚ) (p : ℚ) p h1 ?_ ?_ ?_
  · rw [h2, toDouble_natCast s hs]
  · rw [← h3, ← toDouble_natCast (rel * s) (h3 ▸ hp)]
    push_cast
    rfl
  · exact Int.floor_natCast p

theorem scaled_double_near {rel rendered : ℚ} (bitmap : Nat) (hr : 0 < rendered)
    (h0 : 0 ≤ rel) (h1 : rel ≤ rendered) (hb : bitmap ≤ 2 ^ 51) :
    0 ≤ toDouble (rel * toDouble ((bitmap : ℚ) / rendered)) ∧
    toDouble (rel * toDouble ((bitmap : ℚ) / rendered)) < rel * bitmap / rendered + 1 ∧
    rel * bitmap / rendered - 1 < toDouble (rel * toDouble ((bitmap : ℚ) / rendered)) ∧
    rel * bitmap / rendered ≤ bitmap := by
  have hbq : (bitmap : ℚ) ≤ 2 ^ 51 := by exact_mod_cast hb
  have hb0 : (0 : ℚ) ≤ (bitmap : ℚ) := Nat.cast_nonneg _
  have hs0 : 0 ≤ (bitmap : ℚ) / rendered := div_nonneg hb0 hr.le
  have hsd0 := toDouble_nonneg hs0
  have hs := abs_le.mp (abs_toDouble_sub_le hs0)
  have hp0 : 0 ≤ rel * toDouble ((bitmap : ℚ) / rendered) := mul_nonneg h0 hsd0
  have hp := abs_le.mp (abs_toDouble_sub_le hp0)
  have hv : rel * bitmap / rendered = rel * ((bitmap : ℚ) / rendered) := by ring
  have hvle : rel * ((bitmap : ℚ) / rendered) ≤ bitmap := by
    calc rel * ((bitmap : ℚ) / rendered) ≤ rendered * ((bitmap : ℚ) / rendered) :=
          mul_le_mul_of_nonneg_right h1 hs0
      _ = (bitmap : ℚ) := by field_simp
  have hv0 : 0 ≤ rel * ((bitmap : ℚ) / rendered) := mul_nonneg h0 hs0
  have m1 : rel * (toDouble ((bitmap : ℚ) / rendered) - (bitmap : ℚ) / rendered) ≤
      rel * ((bitmap : ℚ) / rendered / 2 ^ 53) := mul_le_mul_of_nonneg_left hs.2 h0
  have m2 : rel * (-((bitmap : ℚ) / rendered / 2 ^ 53)) ≤
      rel * (toDouble ((bitmap : ℚ) / rendered) - (bitmap : ℚ) / rendered) :=
    mul_le_mul_of_nonneg_left hs.1 h0
  rw [hv]
  generalize toDouble (rel * toDouble ((bitmap : ℚ) / rendered)) = pd at hp ⊢
  have e3 : rel * (toDouble ((bitmap : ℚ) / rendered) - (bitmap : ℚ) / rendered) =
      rel * toDouble ((bitmap : ℚ) / rendered) - rel * ((bitmap : ℚ) / rendered) := by ring
  have e4 : rel * ((bitmap : ℚ) / rendered / 2 ^ 53) =
      rel * ((bitmap : ℚ) / rendered) / 2 ^ 53 := by ring
  have e5 : rel * (-((bitmap : ℚ) / rendered / 2 ^ 53)) =
      -(rel * ((bitmap : ℚ) / rendered) / 2 ^ 53) := by ring
  rw [e3, e4] at m1
  rw [e3, e5] at m2
  generalize rel * toDouble ((bitmap : ℚ) / rendered) = p at hp hp0 m1 m2
  generalize rel * ((bitmap : ℚ) / rendered) = v at hvle hv0 m1 m2 ⊢
  have hv51 : v ≤ 2 ^ 51 := le_trans hvle hbq
  norm_num at hp m1 m2 hv51 ⊢
  refine ⟨?_, ?_, ?_, hvle⟩
  · linarith [hp.1]
  · linarith [hp.2]
  · linarith [hp.1]

theorem floor_near {a b : ℚ} (h1 : a < b + 1) (h2 : b - 1 < a) : |⌊a⌋ - ⌊b⌋| ≤ 1 := by
  have a1 := Int.floor_le a
  have a2 := Int.lt_floor_add_one a
  have b1 := Int.floor_le b
  have b2 := Int.lt_floor_add_one b
  have c1 : (⌊a⌋ : ℚ) < (⌊b⌋ : ℚ) + 2 := by linarith
  have c2 : (⌊b⌋ : ℚ) < (⌊a⌋ : ℚ) + 2 := by linarith
  have d1 : ⌊a⌋ < ⌊b⌋ + 2 := by exact_mod_cast c1
  have d2 : ⌊b⌋ < ⌊a⌋ + 2 := by exact_mod_cast c2
  rw [abs_le]
  constructor <;> omega

/-- C3, at the right and the bottom edge: for a surface rendered 200 by 100 over
a bitmap of 800 by 600, a pointer on the right edge maps to the column 800 and
a pointer on the bottom edge to the row 600, one past the last column and row.
On the 2x2 example bitmap the pointer on the right edge maps to the column 2,
where `getColorAtPosition` finds no pixel and answers black. -/
theorem toNative_edge_escapes :
    toNative 200 100 800 600 200 50 = (800, 300) ∧
    toNative 200 100 800 600 100 100 = (400, 600) ∧
    ¬ ((toNative 200 100 800 600 200 50).1 ≤ ((800 : Nat) : Int) - 1) ∧
    ¬ ((toNative 200 100 800 600 100 100).2 ≤ ((600 : Nat) : Int) - 1) ∧
    toNative 200 100 exampleBitmap.width exampleBitmap.height 200 50 = (2, 1) ∧
    (getColorAtPosition (some exampleBitmap) 2 1).hex = "#000000" := by
  have h1 : toNative 200 100 800 600 200 50 = (800, 300) := by
    rw [toNative_eq]
    refine Prod.ext ?_ ?_
    · exact floor_scaled_exact 200 4 800 (by norm_num) (by norm_num) (by norm_num)
        (by norm_num) (by norm_num)
    · exact floor_scaled_exact 50 6 300 (by norm_num) (by norm_num) (by norm_num)
        (by norm_num) (by norm_num)
  have h2 : toNative 200 100 800 600 100 100 = (400, 600) := by
    rw [toNative_eq]
    refine Prod.ext ?_ ?_
    · exact floor_scaled_exact 100 4 400 (by norm_num) (by norm_num) (by norm_num)
        (by norm_num) (by norm_num)
    · exact floor_scaled_exact 100 6 600 (by norm_num) (by norm_num) (by norm_num)
        (by norm_num) (by norm_num)
  have h3 : toNative 200 100 exampleBitmap.width exampleBitmap.height 200 50 = (2, 1) := by
    show toNative 200 100 2 2 200 50 = (2, 1)
    rw [toNative_eq]
    refine Prod.ext ?_ ?_
    · refine floor_scaled_eval 200 ((5764607523034235 : Int) * 2 ^ ((-7 : Int) - 52))
        ((4503599627370496 : Int) * 2 ^ ((1 : Int) - 52)) 2 (by norm_num) ?_ ?_ ?_
      · exact toDouble_eval (by norm_num) (-7) 5764607523034235 (by norm_num) (by norm_num)
          (by norm_num) (by norm_num)
      · exact toDouble_eval (by norm_num) 1 4503599627370496 (by norm_num) (by norm_num)
          (by norm_num) (by norm_num)
      · rw [Int.floor_eq_iff]
        constructor <;> norm_num
    · refine floor_scaled_eval 50 ((5764607523034235 : Int) * 2 ^ ((-6 : Int) - 52))
        ((4503599627370496 : Int) * 2 ^ ((0 : Int) - 52)) 1 (by norm_num) ?_ ?_ ?_
      · exact toDouble_eval (by norm_num) (-6) 5764607523034235 (by norm_num) (by norm_num)
          (by norm_num) (by norm_num)
      · exact toDouble_eval (by norm_num) 0 4503599627370496 (by norm_num) (by norm_num)
          (by norm_num) (by norm_num)
      · rw [Int.floor_eq_iff]
        constructor <;> norm_num
  rw [h1, h2, h3]
  exact ⟨rfl, rfl, by decide, by decide, rfl, by decide⟩

theorem ids_handleAddColor (t : Nat) (r1 r2 : ℚ) (app : App) (h : app.image.isSome = true) :
    (handleAddColor t r1 r2 app).palette.map Swatch.id = app.palette.map Swatch.id ++ [t] := by
  unfold handleAddColor
  have : ¬ app.image.isNone = true := by
    cases hi : app.image with
    | none => rw [hi] at h; cases h
    | some _ => simp
  rw [if_neg this]
  simp only [List.map_append, List.map_cons, List.map_nil]

theorem image_handleAddColor (t : Nat) (r1 r2 : ℚ) (app : App) :
    (handleAddColor t r1 r2 app).image = app.image := by
  unfold handleAddColor
  split_ifs <;> rfl

/-- C10, a run in which identifiers collide: an image is loaded while the clock
reads 1000, which gives the identifiers 1000 to 1004; a swatch appended when
the clock reads 1002 gets the identifier 1002 of the third swatch, and two
swatches appended at one reading of the clock get the same identifier. -/
theorem append_id_collides :
    ∃ app, processFile (fun _ => 1000) (fun _ => 1 / 2) 5 exampleBitmap initialApp = .ok app ∧
      app.palette.map Swatch.id = [1000, 1001, 1002, 1003, 1004] ∧
      (handleAddColor 1002 (1 / 2) (1 / 2) app).palette.map Swatch.id =
        [1000, 1001, 1002, 1003, 1004, 1002] ∧
      ¬ ((handleAddColor 1002 (1 / 2) (1 / 2) app).palette.map Swatch.id).Nodup ∧
      ¬ ((handleAddColor 2000 0 0 (handleAddColor 2000 (1 / 2) (1 / 2) app)).palette.map
          Swatch.id).Nodup := by
  obtain ⟨ps, e1, e2, _⟩ := extract_eq_swatchesFrom (fun _ => 1000) (fun _ => 1 / 2)
    exampleBitmap (by decide) (fun _ => by norm_num) (le_refl 1)
    (by decide : exampleBitmap.width ≤ 5) (by decide : exampleBitmap.height ≤ 5) (le_refl 5)
  have hs : Max.max 1 (Min.min exampleBitmap.width exampleBitmap.height / 50) = 1 := by decide
  have hids : (swatchesFrom (fun _ => 1000) exampleBitmap 0 ps).map Swatch.id =
      [1000, 1001, 1002, 1003, 1004] := by
    rw [ids_swatchesFrom, e2]
    rfl
  obtain ⟨app, happ⟩ : ∃ a : App, a = { initialApp with
      image := some exampleBitmap,
      dimensions := { width := exampleBitmap.width, height := exampleBitmap.height },
      palette := swatchesFrom (fun _ => 1000) exampleBitmap 0 ps } := ⟨_, rfl⟩
  have himg : app.image.isSome = true := by rw [happ]; rfl
  have hpal : app.palette.map Swatch.id = [1000, 1001, 1002, 1003, 1004] := by
    rw [happ]; exact hids
  refine ⟨app, ?_, hpal, ?_, ?_, ?_⟩
  · unfold processFile
    rw [hs, e1, happ]
    rfl
  · rw [ids_handleAddColor _ _ _ app himg, hpal]
    rfl
  · rw [ids_handleAddColor _ _ _ app himg, hpal]
    decide
  · rw [ids_handleAddColor _ _ _ _ (by rw [image_handleAddColor]; exact himg),
      ids_handleAddColor _ _ _ app himg, hpal]
    decide

/-! ## Witnesses on a concrete bitmap -/

theorem extract_length_witness :
    exampleBitmap.Valid ∧
    ∃ palette, extractProminentColors (fun _ => 1000) (fun _ => 1 / 2) 5 exampleBitmap 1 =
      .ok palette ∧ palette.length = 5 :=
  ⟨by decide, extract_length (fun _ => 1000) (fun _ => 1 / 2) 5 exampleBitmap 1 (by decide)
    (by decide) (fun _ => by norm_num) (by decide)⟩

theorem swatches_consistent_witness :
    (∃ palette, extractProminentColors (fun n => 7 + n) (fun _ => 3 / 4) 6 exampleBitmap 2 =
      .ok palette ∧ palette.length = 5 ∧ ∀ sw ∈ palette, sw.Consistent) ∧
    (∀ (t : Nat) (r1 r2 : ℚ) (app : App), (∀ sw ∈ app.palette, sw.Consistent) →
      ∀ sw ∈ (handleAddColor t r1 r2 app).palette, sw.Consistent) ∧
    (∀ (cx cy : ℚ) (app : App), (∀ sw ∈ app.palette, sw.Consistent) →
      ∀ sw ∈ (handleMove cx cy app).palette, sw.Consistent) ∧
    (∀ (id : Nat) (app : App), (∀ sw ∈ app.palette, sw.Consistent) →
      ∀ sw ∈ (handleRemoveColor id app).palette, sw.Consistent) ∧
    (∀ x y : Int,
      (getColorAtPosition none x y).hex =
        rgbToHex (getColorAtPosition none x y).r (getColorAtPosition none x y).g
          (getColorAtPosition none x y).b ∧
      ({ h := (getColorAtPosition none x y).h, s := (getColorAtPosition none x y).s,
         l := (getColorAtPosition none x y).l } : Hsl) =
        rgbToHsl (getColorAtPosition none x y).r (getColorAtPosition none x y).g
          (getColorAtPosition none x y).b) :=
  swatches_consistent (fun n => 7 + n) (fun _ => 3 / 4) 6 exampleBitmap 2 (by decide)
    (by decide) (fun _ => by norm_num) (by decide)

theorem extract_coords_in_bounds_witness :
    ∃ palette, extractProminentColors (fun _ => 42) (fun _ => 0) 5 exampleBitmap 1 =
      .ok palette ∧
      ∀ sw ∈ palette,
        (0 ≤ sw.x ∧ sw.x ≤ (exampleBitmap.width : Int) - 1) ∧
        (0 ≤ sw.y ∧ sw.y ≤ (exampleBitmap.height : Int) - 1) ∧
        0 ≤ (sw.y * exampleBitmap.width + sw.x) * 4 ∧
        (sw.y * exampleBitmap.width + sw.x) * 4 + 3 <
          ((4 * exampleBitmap.width * exampleBitmap.height : Nat) : Int) :=
  extract_coords_in_bounds (fun _ => 42) (fun _ => 0) 5 exampleBitmap 1 (by decide)
    (by decide) (fun _ => by norm_num) (by decide)

theorem ranked_order_witness :
    ∃ (st : ExtractState) (padding : List Swatch),
      rankPhase (fun _ => 5) 8 exampleBitmap 1 = .ok st ∧
      extractProminentColors (fun _ => 5) (fun _ => 1 / 3) 8 exampleBitmap 1 =
        .ok (st.palette ++ padding) ∧
      st.palette.Pairwise (fun a b =>
        bucketCount exampleBitmap 1 b.bucket ≤ bucketCount exampleBitmap 1 a.bucket ∧
        (bucketCount exampleBitmap 1 a.bucket = bucketCount exampleBitmap 1 b.bucket →
          ∃ pa pb, IsFirstHit exampleBitmap 1 a.bucket pa ∧
            IsFirstHit exampleBitmap 1 b.bucket pb ∧ rowMajorLt pa pb)) :=
  ranked_order (fun _ => 5) (fun _ => 1 / 3) 8 exampleBitmap 1 (by decide) (by decide)
    (fun _ => by norm_num) (by decide)

theorem ranked_first_coordinate_witness :
    ∃ (st : ExtractState) (padding : List Swatch),
      rankPhase (fun n => n) 9 exampleBitmap 1 = .ok st ∧
      extractProminentColors (fun n => n) (fun _ => 2 / 3) 9 exampleBitmap 1 =
        .ok (st.palette ++ padding) ∧
      ∀ sw ∈ st.palette, ∃ p : Pos,
        sw.x = p.x ∧ sw.y = p.y ∧ IsFirstHit exampleBitmap 1 sw.bucket p ∧
        sw.r = exampleBitmap.channel p 0 ∧ sw.g = exampleBitmap.channel p 1 ∧
        sw.b = exampleBitmap.channel p 2 :=
  ranked_first_coordinate (fun n => n) (fun _ => 2 / 3) 9 exampleBitmap 1 (by decide)
    (by decide) (fun _ => by norm_num) (by decide)

theorem extract_ids_distinct_witness :
    Monotone (fun n : Nat => 1000 + n / 2) ∧
    ∃ palette, extractProminentColors (fun n => 1000 + n / 2) (fun _ => 1 / 2) 5
        exampleBitmap 1 = .ok palette ∧
      palette.length = 5 ∧ (palette.map Swatch.id).Nodup :=
  have hmono : Monotone (fun n : Nat => 1000 + n / 2) :=
    fun _ _ h => Nat.add_le_add_left (Nat.div_le_div_right h) 1000
  ⟨hmono, extract_ids_distinct (fun n => 1000 + n / 2) (fun _ => 1 / 2) 5 exampleBitmap 1
    (by decide) (by decide) (fun _ => by norm_num) (by decide) hmono⟩

/-! ## The formula of the native coordinates -/

/-- C12, as amended. For a rendered surface with positive sides and a bitmap
with sides up to `2^51`, `toNative` is on each axis the floor of the product,
rounded to a double, of the clamped pointer coordinate and the scale of that
axis, itself rounded to a double. The result differs by at most one from the
floor of the exact value `clamp * bitmap / rendered`, and it is that floor when
the scale and the product are doubles; it lies between 0 and the side of the
bitmap; a negative pointer coordinate maps to 0; and for a surface of 200 by
100 over a bitmap of 800 by 600 the pointer `(100, 50)` maps to `(400, 300)`. -/
theorem toNative_near_formula (renderedWidth renderedHeight : ℚ)
    (bitmapWidth bitmapHeight : Nat) (pointerX pointerY : ℚ) (hw : 0 < renderedWidth)
    (hh : 0 < renderedHeight) (hbw : bitmapWidth ≤ 2 ^ 51) (hbh : bitmapHeight ≤ 2 ^ 51) :
    toNative renderedWidth renderedHeight bitmapWidth bitmapHeight pointerX pointerY =
      (⌊toDouble (clamp pointerX 0 renderedWidth * toDouble (bitmapWidth / renderedWidth))⌋,
       ⌊toDouble (clamp pointerY 0 renderedHeight * toDouble (bitmapHeight / renderedHeight))⌋) ∧
    |(toNative renderedWidth renderedHeight bitmapWidth bitmapHeight pointerX pointerY).1 -
        ⌊clamp pointerX 0 renderedWidth * bitmapWidth / renderedWidth⌋| ≤ 1 ∧
    |(toNative renderedWidth renderedHeight bitmapWidth bitmapHeight pointerX pointerY).2 -
        ⌊clamp pointerY 0 renderedHeight * bitmapHeight / renderedHeight⌋| ≤ 1 ∧
    (toDouble (bitmapWidth / renderedWidth) = bitmapWidth / renderedWidth →
      toDouble (clamp pointerX 0 renderedWidth * (bitmapWidth / renderedWidth)) =
        clamp pointerX 0 renderedWidth * (bitmapWidth / renderedWidth) →
      (toNative renderedWidth renderedHeight bitmapWidth bitmapHeight pointerX pointerY).1 =
        ⌊clamp pointerX 0 renderedWidth * bitmapWidth / renderedWidth⌋) ∧
    (toDouble (bitmapHeight / renderedHeight) = bitmapHeight / renderedHeight →
      toDouble (clamp pointerY 0 renderedHeight * (bitmapHeight / renderedHeight)) =
        clamp pointerY 0 renderedHeight * (bitmapHeight / renderedHeight) →
      (toNative renderedWidth renderedHeight bitmapWidth bitmapHeight pointerX pointerY).2 =
        ⌊clamp pointerY 0 renderedHeight * bitmapHeight / renderedHeight⌋) ∧
    (0 ≤ (toNative renderedWidth renderedHeight bitmapWidth bitmapHeight pointerX pointerY).1 ∧
      (toNative renderedWidth renderedHeight bitmapWidth bitmapHeight pointerX pointerY).1 ≤
        bitmapWidth) ∧
    (0 ≤ (toNative renderedWidth renderedHeight bitmapWidth bitmapHeight pointerX pointerY).2 ∧
      (toNative renderedWidth renderedHeight bitmapWidth bitmapHeight pointerX pointerY).2 ≤
        bitmapHeight) ∧
    (pointerX < 0 →
      (toNative renderedWidth renderedHeight bitmapWidth bitmapHeight pointerX pointerY).1 = 0) ∧
    (pointerY < 0 →
      (toNative renderedWidth renderedHeight bitmapWidth bitmapHeight pointerX pointerY).2 = 0) ∧
    toNative 200 100 800 600 100 50 = (400, 300) := by
  have hx := scaled_double_near bitmapWidth hw (le_max_left 0 (Min.min pointerX renderedWidth))
    (max_le hw.le (min_le_right _ _)) hbw
  have hy := scaled_double_near bitmapHeight hh (le_max_left 0 (Min.min pointerY renderedHeight))
    (max_le hh.le (min_le_right _ _)) hbh
  have bound : ∀ (a : ℚ) (v : ℚ) (n : Nat), 0 ≤ a → a < v + 1 → v ≤ n → 0 ≤ ⌊a⌋ ∧ ⌊a⌋ ≤ (n : Int) := by
    intro a v n h0 h1 h2
    refine ⟨Int.floor_nonneg.mpr h0, ?_⟩
    have : ⌊a⌋ < (n : Int) + 1 := by
      rw [Int.floor_lt]
      push_cast
      linarith
    omega
  refine ⟨rfl, ?_, ?_, ?_, ?_, ?_, ?_, ?_, ?_, ?_⟩
  · exact floor_near hx.2.1 hx.2.2.1
  · exact floor_near hy.2.1 hy.2.2.1
  · intro h1 h2
    simp only [toNative_eq, clamp] at h2 ⊢
    rw [h1, h2, mul_div_assoc]
  · intro h1 h2
    simp only [toNative_eq, clamp] at h2 ⊢
    rw [h1, h2, mul_div_assoc]
  · exact bound _ _ _ hx.1 hx.2.1 hx.2.2.2
  · exact bound _ _ _ hy.1 hy.2.1 hy.2.2.2
  · intro hneg
    have : Max.max 0 (Min.min pointerX renderedWidth) = 0 :=
      max_eq_left (le_trans (min_le_left _ _) hneg.le)
    simp only [toNative_eq, this, zero_mul, toDouble_zero, Int.floor_zero]
  · intro hneg
    have : Max.max 0 (Min.min pointerY renderedHeight) = 0 :=
      max_eq_left (le_trans (min_le_left _ _) hneg.le)
    simp only [toNative_eq, this, zero_mul, toDouble_zero, Int.floor_zero]
  · rw [toNative_eq]
    refine Prod.ext ?_ ?_
    · exact floor_scaled_exact 100 4 400 (by norm_num) (by norm_num) (by norm_num)
        (by norm_num) (by norm_num)
    · exact floor_scaled_exact 50 6 300 (by norm_num) (by norm_num) (by norm_num)
        (by norm_num) (by norm_num)

theorem toNative_near_formula_witness :
    toNative 300 150 800 600 (-7) 75 =
      (⌊toDouble (clamp (-7) 0 300 * toDouble ((800 : Nat) / 300))⌋,
       ⌊toDouble (clamp 75 0 150 * toDouble ((600 : Nat) / 150))⌋) ∧
    |(toNative 300 150 800 600 (-7) 75).1 - ⌊clamp (-7) 0 300 * (800 : Nat) / 300⌋| ≤ 1 ∧
    |(toNative 300 150 800 600 (-7) 75).2 - ⌊clamp 75 0 150 * (600 : Nat) / 150⌋| ≤ 1 ∧
    (toDouble ((800 : Nat) / 300) = (800 : Nat) / 300 →
      toDouble (clamp (-7) 0 300 * ((800 : Nat) / 300)) = clamp (-7) 0 300 * ((800 : Nat) / 300) →
      (toNative 300 150 800 600 (-7) 75).1 = ⌊clamp (-7) 0 300 * (800 : Nat) / 300⌋) ∧
    (toDouble ((600 : Nat) / 150) = (600 : Nat) / 150 →
      toDouble (clamp 75 0 150 * ((600 : Nat) / 150)) = clamp 75 0 150 * ((600 : Nat) / 150) →
      (toNative 300 150 800 600 (-7) 75).2 = ⌊clamp 75 0 150 * (600 : Nat) / 150⌋) ∧
    (0 ≤ (toNative 300 150 800 600 (-7) 75).1 ∧
      (toNative 300 150 800 600 (-7) 75).1 ≤ (800 : Nat)) ∧
    (0 ≤ (toNative 300 150 800 600 (-7) 75).2 ∧
      (toNative 300 150 800 600 (-7) 75).2 ≤ (600 : Nat)) ∧
    ((-7 : ℚ) < 0 → (toNative 300 150 800 600 (-7) 75).1 = 0) ∧
    ((75 : ℚ) < 0 → (toNative 300 150 800 600 (-7) 75).2 = 0) ∧
    toNative 200 100 800 600 100 50 = (400, 300) :=
  toNative_near_formula 300 150 800 600 (-7) 75 (by norm_num) (by norm_num) (by norm_num)
    (by norm_num)

/-- C12 fails as stated: for a surface rendered 194 wide over a bitmap 800
wide, the scale `800 / 194` is rounded to a double below its exact value, the
product with the pointer coordinate 97 is rounded to the double just below
400, and `toNative` returns the column 399, where the formula of the claim
gives 400. -/
theorem toNative_rounds_below_formula :
    toNative 194 100 800 600 97 50 = (399, 300) ∧
    (⌊clamp 97 0 194 * ((800 : Nat) : ℚ) / 194⌋, ⌊clamp 50 0 100 * ((600 : Nat) : ℚ) / 100⌋) =
      (400, 300) ∧
    toNative 194 100 800 600 97 50 ≠
      (⌊clamp 97 0 194 * ((800 : Nat) : ℚ) / 194⌋, ⌊clamp 50 0 100 * ((600 : Nat) : ℚ) / 100⌋) := by
  have h1 : toNative 194 100 800 600 97 50 = (399, 300) := by
    rw [toNative_eq]
    refine Prod.ext ?_ ?_
    · refine floor_scaled_eval 97 ((4642886213784016 : Int) * 2 ^ ((2 : Int) - 52))
        ((7036874417766399 : Int) * 2 ^ ((8 : Int) - 52)) 399 (by norm_num) ?_ ?_ ?_
      · exact toDouble_eval (by norm_num) 2 4642886213784016 (by norm_num) (by norm_num)
          (by norm_num) (by norm_num)
      · exact toDouble_eval (by norm_num) 8 7036874417766399 (by norm_num) (by norm_num)
          (by norm_num) (by norm_num)
      · rw [Int.floor_eq_iff]
        constructor <;> norm_num
    · exact floor_scaled_exact 50 6 300 (by norm_num) (by norm_num) (by norm_num)
        (by norm_num) (by norm_num)
  have h2 : (⌊clamp 97 0 194 * ((800 : Nat) : ℚ) / 194⌋,
      ⌊clamp 50 0 100 * ((600 : Nat) : ℚ) / 100⌋) = (400, 300) := by
    norm_num [clamp]
  refine ⟨h1, h2, ?_⟩
  rw [h1, h2]
  decide

/-! ## Lightness -/

theorem mathRound_zero : mathRound 0 = 0 := by
  norm_num [mathRound]

theorem mathRound_int_div (n : Int) (d : Nat) (hd : 0 < d) :
    mathRound ((n : ℚ) / (2 * d)) = (n + d) / (2 * d) := by
  unfold mathRound
  have hd0 : (d : ℚ) ≠ 0 := by exact_mod_cast hd.ne'
  have e : (n : ℚ) / (2 * d) + 1 / 2 = ((n + d : Int) : ℚ) / ((2 * d : Nat) : ℚ) := by
    push_cast
    field_simp
    ring
  rw [e, Rat.floor_intCast_div_natCast]
  push_cast
  rfl

/-- C15. For a grey `(v, v, v)`, `rgbToHsl` returns `h = 0`, `s = 0` and
`l = round (100 v / 255)`; for all channels the lightness is
`round (100 (max + min) / (2 * 255))`, that is the integer quotient of
`100 (max + min) + 255` by 510. This holds for all integers, in particular for
the channels in `[0, 255]`. -/
theorem rgbToHsl_lightness (v r g b : Int) :
    rgbToHsl v v v = { h := 0, s := 0, l := mathRound (100 * (v : ℚ) / 255) } ∧
    (rgbToHsl r g b).l =
      mathRound (100 * (((Max.max r (Max.max g b) + Min.min r (Min.min g b) : Int)) : ℚ) /
        (2 * 255)) ∧
    (rgbToHsl r g b).l =
      (100 * (Max.max r (Max.max g b) + Min.min r (Min.min g b)) + 255) / 510 := by
  have hl : (rgbToHsl r g b).l =
      mathRound (100 * (((Max.max r (Max.max g b) + Min.min r (Min.min g b) : Int)) : ℚ) /
        (2 * 255)) := by
    have e1 : Max.max ((r : ℚ) / 255) (Max.max ((g : ℚ) / 255) ((b : ℚ) / 255)) =
        ((Max.max r (Max.max g b) : Int) : ℚ) / 255 := by
      rw [max_div_div_right (by norm_num), max_div_div_right (by norm_num)]
      push_cast
      rfl
    have e2 : Min.min ((r : ℚ) / 255) (Min.min ((g : ℚ) / 255) ((b : ℚ) / 255)) =
        ((Min.min r (Min.min g b) : Int) : ℚ) / 255 := by
      rw [min_div_div_right (by norm_num), min_div_div_right (by norm_num)]
      push_cast
      rfl
    have e3 : ∀ M m : ℚ, (M / 255 + m / 255) / 2 * 100 = 100 * (M + m) / (2 * 255) := by
      intro M m; ring
    unfold rgbToHsl
    simp only [e1, e2]
    split_ifs <;> simp only [e3] <;> push_cast <;> rfl
  refine ⟨?_, hl, ?_⟩
  · unfold rgbToHsl
    simp only [max_self, min_self, if_true, zero_mul, mathRound_zero]
    congr 2
    ring
  · rw [hl]
    have := mathRound_int_div (100 * (Max.max r (Max.max g b) + Min.min r (Min.min g b))) 255
      (by norm_num)
    push_cast at this ⊢
    rw [this]

/-! ## Repositioning -/

/-- C16. During a drag with an active identifier, an attached container and an
image, `handleMove` keeps the length and the order of the palette and touches
nothing else of the state; a swatch whose identifier is not the active one is
unchanged; a swatch with the active identifier keeps its identifier and gets
all of `x, y, color, r, g, b, h, s, l` together from the native coordinate of
the pointer and the colour `getColorAtPosition` finds there. Without a drag, an
active identifier, a container or an image, `handleMove` changes nothing, and
`handleEndDrag` leaves the palette as it is. -/
theorem handleMove_frame (clientX clientY : ℚ) (app : App) :
    (handleMove clientX clientY app).palette.length = app.palette.length ∧
    (handleMove clientX clientY app).palette.map Swatch.id = app.palette.map Swatch.id ∧
    (handleMove clientX clientY app).image = app.image ∧
    (handleMove clientX clientY app).dimensions = app.dimensions ∧
    (handleMove clientX clientY app).activeId = app.activeId ∧
    (handleMove clientX clientY app).isDragging = app.isDragging ∧
    (∀ (activeId : Nat) (rect : DOMRect) (native : Int × Int) (c : ColorAt),
      app.isDragging = true → app.activeId = some activeId →
      app.containerRef = some rect → app.image.isSome = true →
      native = toNative rect.width rect.height app.dimensions.width app.dimensions.height
        (toDouble (clientX - rect.left)) (toDouble (clientY - rect.top)) →
      c = getColorAtPosition app.image native.1 native.2 →
      ∀ (i : Nat) (h1 : i < app.palette.length)
        (h2 : i < (handleMove clientX clientY app).palette.length),
        (app.palette[i].id ≠ activeId →
          (handleMove clientX clientY app).palette[i] = app.palette[i]) ∧
        (app.palette[i].id = activeId →
          (handleMove clientX clientY app).palette[i].id = app.palette[i].id ∧
          (handleMove clientX clientY app).palette[i].x = native.1 ∧
          (handleMove clientX clientY app).palette[i].y = native.2 ∧
          (handleMove clientX clientY app).palette[i].color = c.hex ∧
          (handleMove clientX clientY app).palette[i].r = c.r ∧
          (handleMove clientX clientY app).palette[i].g = c.g ∧
          (handleMove clientX clientY app).palette[i].b = c.b ∧
          (handleMove clientX clientY app).palette[i].h = c.h ∧
          (handleMove clientX clientY app).palette[i].s = c.s ∧
          (handleMove clientX clientY app).palette[i].l = c.l)) ∧
    ((app.isDragging = false ∨ app.activeId = none ∨ app.containerRef = none ∨
        app.image = none) → handleMove clientX clientY app = app) ∧
    (handleEndDrag app).palette = app.palette ∧ (handleEndDrag app).activeId = none ∧
    (handleEndDrag app).isDragging = false := by
  refine ⟨?_, ?_, ?_, ?_, ?_, ?_, ?_, ?_, rfl, rfl, rfl⟩
  · unfold handleMove; split <;> simp
  · unfold handleMove
    split
    · simp only [List.map_map]
      apply List.map_congr_left
      intro p _
      simp only [Function.comp]
      split_ifs <;> rfl
    · rfl
  · unfold handleMove; split <;> rfl
  · unfold handleMove; split <;> rfl
  · unfold handleMove; split <;> rfl
  · unfold handleMove; split <;> rfl
  · intro activeId rect native c hd ha hc hi hn hcol i h1 h2
    obtain ⟨img, himg⟩ := Option.isSome_iff_exists.mp hi
    subst hn hcol
    have e : (handleMove clientX clientY app).palette =
        app.palette.map (fun p =>
          if p.id = activeId then
            { p with
              x := (toNative rect.width rect.height app.dimensions.width app.dimensions.height
                (toDouble (clientX - rect.left)) (toDouble (clientY - rect.top))).1,
              y := (toNative rect.width rect.height app.dimensions.width app.dimensions.height
                (toDouble (clientX - rect.left)) (toDouble (clientY - rect.top))).2,
              color := (getColorAtPosition app.image
                (toNative rect.width rect.height app.dimensions.width app.dimensions.height
                  (toDouble (clientX - rect.left)) (toDouble (clientY - rect.top))).1
                (toNative rect.width rect.height app.dimensions.width app.dimensions.height
                  (toDouble (clientX - rect.left)) (toDouble (clientY - rect.top))).2).hex,
              hex := some (getColorAtPosition app.image
                (toNative rect.width rect.height app.dimensions.width app.dimensions.height
                  (toDouble (clientX - rect.left)) (toDouble (clientY - rect.top))).1
                (toNative rect.width rect.height app.dimensions.width app.dimensions.height
                  (toDouble (clientX - rect.left)) (toDouble (clientY - rect.top))).2).hex,
              r := (getColorAtPosition app.image
                (toNative rect.width rect.height app.dimensions.width app.dimensions.height
                  (toDouble (clientX - rect.left)) (toDouble (clientY - rect.top))).1
                (toNative rect.width rect.height app.dimensions.width app.dimensions.height
                  (toDouble (clientX - rect.left)) (toDouble (clientY - rect.top))).2).r,
              g := (getColorAtPosition app.image
                (toNative rect.width rect.height app.dimensions.width app.dimensions.height
                  (toDouble (clientX - rect.left)) (toDouble (clientY - rect.top))).1
                (toNative rect.width rect.height app.dimensions.width app.dimensions.height
                  (toDouble (clientX - rect.left)) (toDouble (clientY - rect.top))).2).g,
              b := (getColorAtPosition app.image
                (toNative rect.width rect.height app.dimensions.width app.dimensions.height
                  (toDouble (clientX - rect.left)) (toDouble (clientY - rect.top))).1
                (toNative rect.width rect.height app.dimensions.width app.dimensions.height
                  (toDouble (clientX - rect.left)) (toDouble (clientY - rect.top))).2).b,
              h := (getColorAtPosition app.image
                (toNative rect.width rect.height app.dimensions.width app.dimensions.height
                  (toDouble (clientX - rect.left)) (toDouble (clientY - rect.top))).1
                (toNative rect.width rect.height app.dimensions.width app.dimensions.height
                  (toDouble (clientX - rect.left)) (toDouble (clientY - rect.top))).2).h,
              s := (getColorAtPosition app.image
                (toNative rect.width rect.height app.dimensions.width app.dimensions.height
                  (toDouble (clientX - rect.left)) (toDouble (clientY - rect.top))).1
                (toNative rect.width rect.height app.dimensions.width app.dimensions.height
                  (toDouble (clientX - rect.left)) (toDouble (clientY - rect.top))).2).s,
              l := (getColorAtPosition app.image
                (toNative rect.width rect.height app.dimensions.width app.dimensions.height
                  (toDouble (clientX - rect.left)) (toDouble (clientY - rect.top))).1
                (toNative rect.width rect.height app.dimensions.width app.dimensions.height
                  (toDouble (clientX - rect.left)) (toDouble (clientY - rect.top))).2).l }
          else p) := by
      unfold handleMove
      simp only [hd, ha, hc, himg]
    simp only [e, List.getElem_map]
    constructor
    · intro hne
      rw [if_neg hne]
    · intro heq
      rw [if_pos heq]
      exact ⟨rfl, rfl, rfl, rfl, rfl, rfl, rfl, rfl, rfl, rfl⟩
  · intro h
    unfold handleMove
    rcases h with h | h | h | h
    · simp only [h]
    · simp only [h]
      split <;> simp_all
    · simp only [h]
      split <;> simp_all
    · simp only [h]
      split <;> simp_all

/-! ## Channels outside the range of a byte -/

theorem toDigits_seven_general (N : Nat) (h1 : 16777216 ≤ N) (h2 : N < 268435456) :
    Nat.toDigits 16 N =
      [Nat.digitChar (N / 16777216), Nat.digitChar (N / 1048576 % 16),
        Nat.digitChar (N / 65536 % 16), Nat.digitChar (N / 4096 % 16),
        Nat.digitChar (N / 256 % 16), Nat.digitChar (N / 16 % 16), Nat.digitChar (N % 16)] := by
  obtain ⟨k, rfl⟩ : ∃ k, N = k + 6 := ⟨N - 6, by omega⟩
  have e1 : (k + 6) / 16 ≠ 0 := by omega
  have e2 : (k + 6) / 16 / 16 ≠ 0 := by omega
  have e3 : (k + 6) / 16 / 16 / 16 ≠ 0 := by omega
  have e4 : (k + 6) / 16 / 16 / 16 / 16 ≠ 0 := by omega
  have e5 : (k + 6) / 16 / 16 / 16 / 16 / 16 ≠ 0 := by omega
  have e6 : (k + 6) / 16 / 16 / 16 / 16 / 16 / 16 ≠ 0 := by omega
  have e7 : (k + 6) / 16 / 16 / 16 / 16 / 16 / 16 / 16 = 0 := by omega
  have d6 : (k + 6) / 16 / 16 / 16 / 16 / 16 / 16 % 16 = (k + 6) / 16777216 := by omega
  have d5 : (k + 6) / 16 / 16 / 16 / 16 / 16 % 16 = (k + 6) / 1048576 % 16 := by omega
  have d4 : (k + 6) / 16 / 16 / 16 / 16 % 16 = (k + 6) / 65536 % 16 := by omega
  have d3 : (k + 6) / 16 / 16 / 16 % 16 = (k + 6) / 4096 % 16 := by omega
  have d2 : (k + 6) / 16 / 16 % 16 = (k + 6) / 256 % 16 := by omega
  simp only [Nat.toDigits, Nat.toDigitsCore, e1, e2, e3, e4, e5, e6, e7, if_true, if_false,
    d6, d5, d4, d3, d2]

theorem shl_of_small {c : Int} (k : Nat) (h : -2147483648 ≤ c * 2 ^ k)
    (h2 : c * 2 ^ k < 2147483648) : shl c k = c * 2 ^ k := by
  have hpos : (1 : Int) ≤ 2 ^ k := one_le_pow₀ (by norm_num)
  have hc : -2147483648 ≤ c ∧ c < 2147483648 := by
    constructor
    · by_contra hlt
      push_neg at hlt
      nlinarith
    · by_contra hge
      push_neg at hge
      nlinarith
  unfold shl toInt32
  have : (c + 2147483648) % 4294967296 - 2147483648 = c := by omega
  rw [this]
  omega

theorem rgbToHex_carry_nat (r g b : Int) (n : Nat) (hr : -32768 ≤ r ∧ r < 32768)
    (hg : -8388608 ≤ g ∧ g < 8388608) (hn : 65536 * r + 256 * g + b = (n : Int))
    (hlt : n < 251658240) :
    rgbToHex r g b =
      rgbToHex ((n / 65536 % 256 : Nat) : Int) ((n / 256 % 256 : Nat) : Int)
        ((n % 256 : Nat) : Int) := by
  have e1 : shl 1 24 = 16777216 := by decide
  have e2 : shl r 16 = r * 2 ^ 16 := shl_of_small 16 (by omega) (by omega)
  have e3 : shl g 8 = g * 2 ^ 8 := shl_of_small 8 (by omega) (by omega)
  have e4 : shl 1 24 + shl r 16 + shl g 8 + b = ((16777216 + n : Nat) : Int) := by
    rw [e1, e2, e3]; push_cast; omega
  rw [rgbToHex_digits _ _ _ (by omega) (by omega) (by omega)]
  unfold rgbToHex
  rw [e4]
  unfold toString16
  rw [if_neg (by omega), Int.natAbs_ofNat, toDigits_seven_general _ (by omega) (by omega)]
  have d5 : (16777216 + n) / 1048576 % 16 = n / 65536 % 256 / 16 := by omega
  have d4 : (16777216 + n) / 65536 % 16 = n / 65536 % 256 % 16 := by omega
  have d3 : (16777216 + n) / 4096 % 16 = n / 256 % 256 / 16 := by omega
  have d2 : (16777216 + n) / 256 % 16 = n / 256 % 256 % 16 := by omega
  have d1 : (16777216 + n) / 16 % 16 = n % 256 / 16 := by omega
  have d0 : (16777216 + n) % 16 = n % 256 % 16 := by omega
  rw [d5, d4, d3, d2, d1, d0]
  rfl

/-- C13, as amended. `rgbToHex` never fails and neither validates nor clamps:
when the number `v = 65536 r + 256 g + b` lies in `[0, 15 * 2^24)` (and `r`
and `g` are small enough for the 32-bit shifts), the result is the encoding of
the three bytes of `v` modulo `2^24`, so that a channel outside `[0, 255]`
carries into the higher channels or wraps around; for channels in `[0, 255]`
these bytes are the channels themselves. -/
theorem rgbToHex_carries (r g b : Int) (hr : -32768 ≤ r ∧ r < 32768)
    (hg : -8388608 ≤ g ∧ g < 8388608)
    (hv : 0 ≤ 65536 * r + 256 * g + b ∧ 65536 * r + 256 * g + b < 251658240) :
    rgbToHex r g b =
      rgbToHex ((65536 * r + 256 * g + b) / 65536 % 256) ((65536 * r + 256 * g + b) / 256 % 256)
        ((65536 * r + 256 * g + b) % 256) ∧
    ((0 ≤ r ∧ r ≤ 255) → (0 ≤ g ∧ g ≤ 255) → (0 ≤ b ∧ b ≤ 255) →
      (65536 * r + 256 * g + b) / 65536 % 256 = r ∧
      (65536 * r + 256 * g + b) / 256 % 256 = g ∧ (65536 * r + 256 * g + b) % 256 = b) := by
  constructor
  · obtain ⟨n, hn⟩ := Int.eq_ofNat_of_zero_le hv.1
    have := rgbToHex_carry_nat r g b n hr hg hn (by omega)
    rw [this, hn]
    norm_cast
  · intro h1 h2 h3
    omega

theorem rgbToHex_carries_witness :
    rgbToHex 256 0 0 =
      rgbToHex ((65536 * 256 + 256 * 0 + 0) / 65536 % 256) ((65536 * 256 + 256 * 0 + 0) / 256 % 256)
        ((65536 * 256 + 256 * 0 + 0) % 256) ∧
    (((0 : Int) ≤ 256 ∧ (256 : Int) ≤ 255) → ((0 : Int) ≤ 0 ∧ (0 : Int) ≤ 255) →
      ((0 : Int) ≤ 0 ∧ (0 : Int) ≤ 255) →
      (65536 * 256 + 256 * 0 + 0) / 65536 % 256 = (256 : Int) ∧
      (65536 * 256 + 256 * 0 + 0) / 256 % 256 = (0 : Int) ∧
      (65536 * 256 + 256 * 0 + 0) % 256 = (0 : Int)) :=
  rgbToHex_carries 256 0 0 (by decide) (by decide) (by decide)

/-- C13 fails as stated: `rgbToHex(256, 0, 0)` is not an error and is not the
encoding `#FF0000` of the clamped channels; it is `#000000`, the encoding of
black; `rgbToHex(0, 256, 0)` is `#010000`, and `rgbToHex(-1, 0, 0)` is not a
colour of six digits. -/
theorem rgbToHex_neither_rejects_nor_clamps :
    rgbToHex 256 0 0 = "#000000" ∧
    rgbToHex (clampChannel 256) (clampChannel 0) (clampChannel 0) = "#FF0000" ∧
    rgbToHex 256 0 0 ≠ rgbToHex (clampChannel 256) (clampChannel 0) (clampChannel 0) ∧
    rgbToHex 256 0 0 = rgbToHex 0 0 0 ∧
    rgbToHex 0 256 0 = "#010000" ∧
    rgbToHex (-1) 0 0 = "#F0000" := by
  decide

/-! ## Malformed input -/

theorem scanX_stuck (bm : Bitmap) (hlen : bm.data.length = 4 * bm.width * bm.height)
    {x y : Nat} (hx : x < bm.width) (hy : y < bm.height) :
    ∀ (fuel : Nat) (st : ScanState), scanX bm 0 y fuel x st = .error .outOfFuel := by
  intro fuel
  induction fuel with
  | zero =>
    intro st
    simp only [scanX]
    rw [if_pos hx]
  | succ fuel ih =>
    intro st
    simp only [scanX]
    rw [if_pos hx, scanPixel_ok bm hlen hx hy]
    simp only [bind, Except.bind, Nat.add_zero]
    exact ih _

theorem scanY_stuck (bm : Bitmap) (hv : bm.Valid) (fuelX fuel : Nat) (st : ScanState) :
    scanY bm 0 fuelX fuel 0 st = .error .outOfFuel := by
  obtain ⟨hw, hh, hlen, _⟩ := hv
  cases fuel with
  | zero =>
    simp only [scanY]
    rw [if_pos (by omega)]
  | succ fuel =>
    simp only [scanY]
    rw [if_pos (by omega), scanX_stuck bm hlen (by omega : 0 < bm.width) (by omega : 0 < bm.height)]
    rfl

theorem extract_stuck (now : Nat → Nat) (random : Nat → ℚ) (fuel : Nat) (bm : Bitmap)
    (hv : bm.Valid) : extractProminentColors now random fuel bm 0 = .error .outOfFuel := by
  unfold extractProminentColors rankPhase
  rw [if_neg (by obtain ⟨hw, hh, _⟩ := hv; omega), scanY_stuck bm hv]
  rfl

theorem extract_indexSizeError (now : Nat → Nat) (random : Nat → ℚ) (fuel : Nat) (bm : Bitmap)
    (sampleRate : Nat) (h : bm.width = 0 ∨ bm.height = 0) :
    extractProminentColors now random fuel bm sampleRate = .error .indexSizeError := by
  unfold extractProminentColors rankPhase
  rw [if_pos h]
  rfl

/-- C14, as amended. `extractProminentColors` validates nothing itself. With a
width or a height of zero the call fails, because `getImageData` throws an
`IndexSizeError`; with the stride 0 on a valid bitmap it neither fails nor
returns, whatever the fuel: the sampling loop does not advance; and with a
valid bitmap and a stride of at least 1 it fails for no input and returns a
palette. -/
theorem extract_failures (now : Nat → Nat) (random : Nat → ℚ) (fuel : Nat) (bm : Bitmap)
    (sampleRate : Nat) :
    ((bm.width = 0 ∨ bm.height = 0) →
      extractProminentColors now random fuel bm sampleRate = .error .indexSizeError) ∧
    (bm.Valid → sampleRate = 0 →
      extractProminentColors now random fuel bm sampleRate = .error .outOfFuel) ∧
    (bm.Valid → 1 ≤ sampleRate → RandomSource random →
      (bm.width ≤ fuel ∧ bm.height ≤ fuel ∧ 5 ≤ fuel) →
      ∃ palette, extractProminentColors now random fuel bm sampleRate = .ok palette) := by
  refine ⟨extract_indexSizeError now random fuel bm sampleRate, ?_, ?_⟩
  · intro hv hs
    subst hs
    exact extract_stuck now random fuel bm hv
  · intro hv hs hr hfuel
    obtain ⟨ps, e, _⟩ := extract_eq_swatchesFrom now random bm hv hr hs hfuel.1 hfuel.2.1 hfuel.2.2
    exact ⟨_, e⟩

theorem extract_failures_witness :
    extractProminentColors (fun _ => 0) (fun _ => 0) 7
        { width := 0, height := 3, data := [] } 4 = .error .indexSizeError ∧
    extractProminentColors (fun _ => 0) (fun _ => 0) 7 exampleBitmap 0 = .error .outOfFuel ∧
    ∃ palette, extractProminentColors (fun _ => 0) (fun _ => 0) 7 exampleBitmap 3 = .ok palette :=
  ⟨(extract_failures (fun _ => 0) (fun _ => 0) 7 { width := 0, height := 3, data := [] } 4).1
      (Or.inl rfl),
    (extract_failures (fun _ => 0) (fun _ => 0) 7 exampleBitmap 0).2.1 (by decide) rfl,
    (extract_failures (fun _ => 0) (fun _ => 0) 7 exampleBitmap 3).2.2 (by decide) (by decide)
      (fun _ => by norm_num) (by decide)⟩

/-- C14 fails as stated: with the stride 0 on the 2x2 example bitmap the
extraction does not fail with an error of its own and returns no palette, with
any amount of fuel; the sampling loop runs out of every fuel. -/
theorem extract_stride_zero_diverges :
    extractProminentColors (fun _ => 0) (fun _ => 0) 1000 exampleBitmap 0 =
      .error .outOfFuel ∧
    ¬ ∃ fuel palette,
      extractProminentColors (fun _ => 0) (fun _ => 0) fuel exampleBitmap 0 = .ok palette := by
  refine ⟨extract_stuck _ _ _ _ (by decide), ?_⟩
  rintro ⟨fuel, palette, h⟩
  rw [extract_stuck _ _ _ _ (by decide)] at h
  cases h

/-! ## Bitmaps of one colour -/

theorem length_flatten_replicate (n : Nat) (l : List Nat) :
    (List.replicate n l).flatten.length = n * l.length := by
  induction n with
  | zero => simp
  | succ n ih =>
    rw [List.replicate_succ, List.flatten_cons, List.length_append, ih, Nat.succ_mul, Nat.add_comm]

theorem getD_flatten_replicate (r g b a : Nat) :
    ∀ (n i c : Nat), i < n → c < 4 →
      (List.replicate n [r, g, b, a]).flatten.getD (i * 4 + c) 0 = [r, g, b, a].getD c 0 := by
  intro n
  induction n with
  | zero => intro i c hi; omega
  | succ n ih =>
    intro i c hi hc
    rw [List.replicate_succ, List.flatten_cons]
    cases i with
    | zero =>
      rw [Nat.zero_mul, Nat.zero_add, List.getD_eq_getElem?_getD, List.getD_eq_getElem?_getD,
        List.getElem?_append_left (by simpa using hc)]
    | succ i =>
      have e : (i + 1) * 4 + c = [r, g, b, a].length + (i * 4 + c) := by
        simp only [List.length_cons, List.length_nil]; omega
      rw [e, List.getD_eq_getElem?_getD, List.getElem?_append_right (by omega),
        Nat.add_sub_cancel_left, ← List.getD_eq_getElem?_getD]
      exact ih i c (by omega) hc

theorem solidBitmap_valid (width height r g b a : Nat) (hw : 1 ≤ width) (hh : 1 ≤ height)
    (hr : r < 256) (hg : g < 256) (hb : b < 256) (ha : a < 256) :
    (solidBitmap width height r g b a).Valid := by
  refine ⟨hw, hh, ?_, ?_⟩
  · simp only [solidBitmap, length_flatten_replicate, List.length_cons, List.length_nil]
    ring
  · intro v hv
    simp only [solidBitmap, List.mem_flatten] at hv
    obtain ⟨l, hl, hvl⟩ := hv
    rw [List.eq_of_mem_replicate hl] at hvl
    simp only [List.mem_cons, List.mem_singleton, List.not_mem_nil, or_false] at hvl
    rcases hvl with rfl | rfl | rfl | rfl <;> assumption

theorem solidBitmap_uniform (width height r g b a : Nat) :
    (solidBitmap width height r g b a).Uniform r g b := by
  intro p hx hy
  have hi : p.y * width + p.x < width * height := by
    have h1 : (p.y + 1) * width ≤ height * width := Nat.mul_le_mul_right _ hy
    rw [Nat.succ_mul] at h1
    have h2 : height * width = width * height := Nat.mul_comm _ _
    have hx2 : p.x < width := hx
    omega
  simp only [Bitmap.channel, solidBitmap]
  refine ⟨?_, ?_, ?_⟩
  · exact getD_flatten_replicate r g b a _ _ 0 hi (by norm_num)
  · exact getD_flatten_replicate r g b a _ _ 1 hi (by norm_num)
  · exact getD_flatten_replicate r g b a _ _ 2 hi (by norm_num)

/-- C11. On a valid bitmap whose pixels all have the colour `(r, g, b)`, every
one of the 5 swatches returned by `extractProminentColors` has the colour
`rgbToHex (r, g, b)` and the `h, s, l` of `rgbToHsl (r, g, b)`, for every
stride of at least 1 and every random source; for `(255, 0, 0)` these are
`#FF0000` and `h = 0, s = 100, l = 50`. A bitmap of one pixel is of one colour. -/
theorem uniform_palette (now : Nat → Nat) (random : Nat → ℚ) (fuel : Nat) (bm : Bitmap)
    (sampleRate r g b : Nat) (hv : bm.Valid) (hs : 1 ≤ sampleRate) (hr : RandomSource random)
    (hfuel : bm.width ≤ fuel ∧ bm.height ≤ fuel ∧ 5 ≤ fuel) (hu : bm.Uniform r g b) :
    (∃ palette, extractProminentColors now random fuel bm sampleRate = .ok palette ∧
      palette.length = 5 ∧
      ∀ sw ∈ palette,
        sw.color = rgbToHex r g b ∧
        ({ h := sw.h, s := sw.s, l := sw.l } : Hsl) = rgbToHsl r g b ∧
        ((r, g, b) = (255, 0, 0) →
          sw.color = "#FF0000" ∧ sw.h = 0 ∧ sw.s = 100 ∧ sw.l = 50)) ∧
    (bm.width = 1 → bm.height = 1 →
      bm.Uniform (bm.channel { x := 0, y := 0 } 0) (bm.channel { x := 0, y := 0 } 1)
        (bm.channel { x := 0, y := 0 } 2)) := by
  constructor
  · obtain ⟨ps, e1, e2, e3⟩ :=
      extract_eq_swatchesFrom now random bm hv hr hs hfuel.1 hfuel.2.1 hfuel.2.2
    refine ⟨_, e1, by rw [length_swatchesFrom, e2], fun sw hsw => ?_⟩
    obtain ⟨i, p, hp, rfl⟩ := mem_swatchesFrom now bm ps 0 sw hsw
    obtain ⟨hx, hy⟩ := e3 p hp
    obtain ⟨c0, c1, c2⟩ := hu p hx hy
    simp only [swatchAt, c0, c1, c2]
    refine ⟨trivial, trivial, fun h => ?_⟩
    simp only [Prod.mk.injEq] at h
    obtain ⟨rfl, rfl, rfl⟩ := h
    have e4 : rgbToHsl ((255 : Nat) : Int) ((0 : Nat) : Int) ((0 : Nat) : Int) =
        { h := 0, s := 100, l := 50 } := by
      norm_num [rgbToHsl, mathRound]
    rw [e4]
    exact ⟨by decide, rfl, rfl, rfl⟩
  · intro hw hh p hx hy
    have : p = { x := 0, y := 0 } := by
      rcases p with ⟨px, py⟩
      simp only [Pos.mk.injEq]
      simp only at hx hy
      omega
    subst this
    exact ⟨rfl, rfl, rfl⟩

theorem uniform_palette_witness :
    (solidBitmap 100 100 255 0 0 255).Valid ∧
    ∃ palette, extractProminentColors (fun _ => 0) (fun _ => 1 / 2) 100
        (solidBitmap 100 100 255 0 0 255) 10 = .ok palette ∧
      palette.length = 5 ∧
      ∀ sw ∈ palette, sw.color = "#FF0000" ∧ sw.h = 0 ∧ sw.s = 100 ∧ sw.l = 50 := by
  have hv : (solidBitmap 100 100 255 0 0 255).Valid :=
    solidBitmap_valid 100 100 255 0 0 255 (by norm_num) (by norm_num) (by norm_num)
      (by norm_num) (by norm_num) (by norm_num)
  obtain ⟨⟨palette, h1, h2, h3⟩, _⟩ := uniform_palette (fun _ => 0) (fun _ => 1 / 2) 100
    (solidBitmap 100 100 255 0 0 255) 10 255 0 0 hv (by norm_num) (fun _ => by norm_num)
    ⟨le_refl _, le_refl _, by norm_num⟩ (solidBitmap_uniform 100 100 255 0 0 255)
  exact ⟨hv, palette, h1, h2, fun sw hsw => (h3 sw hsw).2.2 rfl⟩

/-! ## Deduplication -/

theorem channel_lt (bm : Bitmap) (hv : bm.Valid) {p : Pos} (hx : p.x < bm.width)
    (hy : p.y < bm.height) {c : Nat} (hc : c ≤ 3) : bm.channel p c < 256 := by
  have hi := pixel_index_lt bm hv.2.2.1 hx hy
  unfold Bitmap.channel
  rw [List.getD_eq_getElem _ _ (by omega)]
  exact hv.2.2.2 _ (List.getElem_mem _)

theorem mem_nonEmptyBuckets (bm : Bitmap) (stride : Nat) (key : Key) :
    key ∈ nonEmptyBuckets bm stride ↔ ∃ p, bm.Hit stride key p := by
  unfold nonEmptyBuckets Bitmap.Hit
  simp only [Finset.mem_image, Finset.mem_filter, Finset.mem_product, Finset.mem_range]
  constructor
  · rintro ⟨q, ⟨⟨h1, h2⟩, h3, h4, h5⟩, h6⟩
    exact ⟨{ x := q.1, y := q.2 }, h1, h2, h3, h4, h5, h6⟩
  · rintro ⟨p, h1, h2, h3, h4, h5, h6⟩
    exact ⟨(p.x, p.y), ⟨⟨h1, h2⟩, h3, h4, h5⟩, h6⟩

theorem map_bucket_swatchesFrom (now : Nat → Nat) (bm : Bitmap) :
    ∀ (ps : List Pos) (k : Nat),
      (swatchesFrom now bm k ps).map Swatch.bucket = ps.map bm.bucketAt := by
  intro ps
  induction ps with
  | nil => intro k; rfl
  | cons p ps ih =>
    intro k
    rw [swatchesFrom, List.map_cons, List.map_cons, ih, bucket_swatchAt]

theorem map_color_swatchesFrom (now : Nat → Nat) (bm : Bitmap) :
    ∀ (ps : List Pos) (k : Nat),
      (swatchesFrom now bm k ps).map Swatch.color =
        ps.map (fun p => rgbToHex (bm.channel p 0) (bm.channel p 1) (bm.channel p 2)) := by
  intro ps
  induction ps with
  | nil => intro k; rfl
  | cons p ps ih =>
    intro k
    rw [swatchesFrom, List.map_cons, List.map_cons, ih]
    rfl

theorem bucketAt_of_color_eq (bm : Bitmap) (hv : bm.Valid) {p q : Pos}
    (hp : p.x < bm.width ∧ p.y < bm.height) (hq : q.x < bm.width ∧ q.y < bm.height)
    (h : rgbToHex (bm.channel p 0) (bm.channel p 1) (bm.channel p 2) =
      rgbToHex (bm.channel q 0) (bm.channel q 1) (bm.channel q 2)) :
    bm.bucketAt p = bm.bucketAt q := by
  have b := fun (p : Pos) (hp : p.x < bm.width ∧ p.y < bm.height) (c : Nat) (hc : c ≤ 3) =>
    channel_lt bm hv hp.1 hp.2 hc
  have dp := (rgbToHex_decode (bm.channel p 0) (bm.channel p 1) (bm.channel p 2)
    ⟨by omega, by have := b p hp 0 (by omega); omega⟩
    ⟨by omega, by have := b p hp 1 (by omega); omega⟩
    ⟨by omega, by have := b p hp 2 (by omega); omega⟩).2.2.2
  have dq := (rgbToHex_decode (bm.channel q 0) (bm.channel q 1) (bm.channel q 2)
    ⟨by omega, by have := b q hq 0 (by omega); omega⟩
    ⟨by omega, by have := b q hq 1 (by omega); omega⟩
    ⟨by omega, by have := b q hq 2 (by omega); omega⟩).2.2.2
  rw [h, dq] at dp
  simp only [Option.some.injEq, Prod.mk.injEq, Nat.cast_inj] at dp
  simp only [Bitmap.bucketAt, dp.1, dp.2.1, dp.2.2]

/-- C17. The number of ranked swatches is the smaller of 5 and the number of
buckets that are not empty; the ranked swatches quantize to pairwise distinct
buckets, each of them not empty, and so have pairwise distinct colours; the
remaining swatches of the palette are padding. -/
theorem ranked_dedup (now : Nat → Nat) (random : Nat → ℚ) (fuel : Nat) (bm : Bitmap)
    (sampleRate : Nat) (hv : bm.Valid) (hs : 1 ≤ sampleRate) (hr : RandomSource random)
    (hfuel : bm.width ≤ fuel ∧ bm.height ≤ fuel ∧ 5 ≤ fuel) :
    ∃ (st : ExtractState) (padding : List Swatch),
      rankPhase now fuel bm sampleRate = .ok st ∧
      extractProminentColors now random fuel bm sampleRate = .ok (st.palette ++ padding) ∧
      st.palette.length = Min.min 5 (nonEmptyBuckets bm sampleRate).card ∧
      padding.length = 5 - st.palette.length ∧
      (st.palette.map Swatch.bucket).Nodup ∧
      (∀ sw ∈ st.palette, sw.bucket ∈ nonEmptyBuckets bm sampleRate) ∧
      (st.palette.map Swatch.color).Nodup := by
  obtain ⟨st, all, pads, e1, e2, e3, e4, _, e6, e7, e8, _⟩ :=
    extract_spec now random bm hv hr hs hfuel.1 hfuel.2.1 hfuel.2.2
  have hkey : ∀ e ∈ all, bm.bucketAt e.2 = e.1 := fun e he => (e8 e he).1.2.2.2.2.2
  have hcard : (nonEmptyBuckets bm sampleRate).card = all.length := by
    rw [← List.length_map all Prod.fst, ← List.toFinset_card_of_nodup e6]
    congr 1
    ext k
    rw [mem_nonEmptyBuckets, List.mem_toFinset, e7]
  have hbuckets : ((all.take 5).map Prod.snd).map bm.bucketAt = (all.take 5).map Prod.fst := by
    rw [List.map_map]
    exact List.map_congr_left (fun e he => hkey e (List.mem_of_mem_take he))
  have hnd : (((all.take 5).map Prod.snd).map bm.bucketAt).Nodup := by
    rw [hbuckets]
    exact e6.sublist ((List.take_sublist _ _).map _)
  refine ⟨st, _, e1, e2, ?_, ?_, ?_, ?_, ?_⟩
  · rw [e3, length_swatchesFrom, List.length_map, List.length_take, hcard]
  · rw [length_swatchesFrom]
    omega
  · rw [e3, map_bucket_swatchesFrom]
    exact hnd
  · intro sw hsw
    rw [e3] at hsw
    obtain ⟨i, p, hp, rfl⟩ := mem_swatchesFrom now bm _ 0 sw hsw
    obtain ⟨e, he, rfl⟩ := List.mem_map.mp hp
    have he2 := List.mem_of_mem_take he
    rw [bucket_swatchAt, hkey e he2, mem_nonEmptyBuckets]
    exact ⟨e.2, (e8 e he2).1⟩
  · rw [e3, map_color_swatchesFrom]
    refine List.Nodup.map_on ?_ hnd.of_map
    intro p hp q hq hpq
    have hb : ∀ p ∈ (all.take 5).map Prod.snd, p.x < bm.width ∧ p.y < bm.height := by
      intro p hp
      obtain ⟨e, he, rfl⟩ := List.mem_map.mp hp
      have := (e8 e (List.mem_of_mem_take he)).1
      exact ⟨this.1, this.2.1⟩
    exact List.inj_on_of_nodup_map hnd hp hq (bucketAt_of_color_eq bm hv (hb p hp) (hb q hq) hpq)

theorem ranked_dedup_witness :
    ∃ (st : ExtractState) (padding : List Swatch),
      rankPhase (fun n => n) 5 exampleBitmap 1 = .ok st ∧
      extractProminentColors (fun n => n) (fun _ => 1 / 4) 5 exampleBitmap 1 =
        .ok (st.palette ++ padding) ∧
      st.palette.length = Min.min 5 (nonEmptyBuckets exampleBitmap 1).card ∧
      padding.length = 5 - st.palette.length ∧
      (st.palette.map Swatch.bucket).Nodup ∧
      (∀ sw ∈ st.palette, sw.bucket ∈ nonEmptyBuckets exampleBitmap 1) ∧
      (st.palette.map Swatch.color).Nodup :=
  ranked_dedup (fun n => n) (fun _ => 1 / 4) 5 exampleBitmap 1 (by decide) (by decide)
    (fun _ => by norm_num) (by decide)

end PrismaStudio
